import Mathlib

/-!
# RayFall-Multiplayer-3D — formal verification of the specification

A shallow embedding, in Lean 4, of the parts of the RayFall repository that
the frozen claims speak about:

* the authoritative server match state machine (`server/index.js`):
  the `playerHit`, `pickupItem` socket handlers, the respawn and item-expiry
  timer callbacks, and the game loop (`startGameLoop` / `finishGame`);
* the DDA wall caster and sprite caster (`src/engine/Raycaster.ts`);
* the hitscan shot resolution of the `Game` component (`shoot` and
  `hasLineOfSight`).

JavaScript numbers are embedded as `ℚ` (the claims under study are about
ordering, control flow and exact constants, not floating-point rounding);
JavaScript objects used as string-keyed dictionaries are embedded as
insertion-ordered association lists, which is exactly the iteration order
`Object.entries` guarantees for string keys; `undefined` propagation is
embedded with `Option`.
-/

namespace RayFall

/-! ## JS-object dictionaries as insertion-ordered association lists

`lookupA`, `setA`, `eraseA` model `obj[k]`, `obj[k] = v` and `delete obj[k]`.
JS assignment to an existing key keeps its position in iteration order;
assignment to a fresh key appends it. -/

def lookupA {α : Type} (k : String) : List (String × α) → Option α
  | [] => none
  | (k', v) :: rest => if k' = k then some v else lookupA k rest

def setA {α : Type} (k : String) (v : α) : List (String × α) → List (String × α)
  | [] => [(k, v)]
  | (k', v') :: rest => if k' = k then (k, v) :: rest else (k', v') :: setA k v rest

def eraseA {α : Type} (k : String) : List (String × α) → List (String × α)
  | [] => []
  | (k', v') :: rest => if k' = k then rest else (k', v') :: eraseA k rest

theorem lookupA_setA_self {α : Type} (k : String) (v : α) :
    ∀ l : List (String × α), lookupA k (setA k v l) = some v := by
  intro l
  induction l with
  | nil => simp [setA, lookupA]
  | cons hd tl ih =>
    by_cases h : hd.1 = k
    · simp [setA, h, lookupA]
    · simp [setA, h, lookupA, ih]

theorem lookupA_setA_ne {α : Type} (k k' : String) (v : α) (h : k ≠ k') :
    ∀ l : List (String × α), lookupA k' (setA k v l) = lookupA k' l := by
  intro l
  induction l with
  | nil => simp [setA, lookupA, h]
  | cons hd tl ih =>
    by_cases hh : hd.1 = k
    · simp [setA, hh, lookupA, h]
    · simp [setA, hh, lookupA, ih]

theorem lookupA_eraseA_ne {α : Type} (k k' : String) (h : k ≠ k') :
    ∀ l : List (String × α), lookupA k' (eraseA k l) = lookupA k' l := by
  intro l
  induction l with
  | nil => simp [eraseA]
  | cons hd tl ih =>
    by_cases hh : hd.1 = k
    · simp [eraseA, hh, lookupA, h]
    · simp [eraseA, hh, lookupA, ih]

namespace Server

/-! ## Server data model (`server/index.js`)

`rooms[roomId] -> { players, items, timeLeft, status, scores, timerInterval }`.
The `timerInterval` handle is embedded as the boolean `timerActive`
(`setInterval` handle present / `clearInterval` called). -/

abbrev PlayerId := String
abbrev ItemId := String

structure PlayerState where
  x : ℚ
  y : ℚ
  angle : ℚ
  health : ℤ
  isDead : Bool
  name : String
  deriving Repr, DecidableEq

structure Item where
  id : ItemId
  x : ℚ
  y : ℚ
  type : ℕ
  deriving Repr, DecidableEq

inductive RoomStatus
  | WAITING
  | PLAYING
  | FINISHED
  deriving Repr, DecidableEq

structure Room where
  players : List (PlayerId × PlayerState)
  items : List (ItemId × Item)
  scores : List (PlayerId × ℤ)
  timeLeft : ℤ
  status : RoomStatus
  timerActive : Bool
  deriving Repr, DecidableEq

/-- Events emitted by the server.  `io.to(roomId).emit` events carry no
address; events addressed to one socket (`socket.emit` for the pickup reward,
`io.to(victimId)` for the respawn notice) carry the target player id. -/
inductive Event
  | healthUpdate (id : PlayerId) (health : ℤ) (isDead : Option Bool)
  | playerDied (victimId : PlayerId) (killerId : PlayerId)
  | itemSpawn (item : Item)
  | itemRemoved (id : ItemId)
  | itemCollected (toSocket : PlayerId) (type : ℕ)
  | playerRespawn (toSocket : PlayerId) (x y : ℚ)
  | playerMoved (id : PlayerId) (x y angle : ℚ)
  | timeUpdate (t : ℤ)
  | gameOver (winnerId : Option PlayerId) (winnerName : String)
  deriving Repr, DecidableEq

/-- One-shot timers scheduled by the `playerHit` handler, with their
`setTimeout` delays in milliseconds. -/
inductive Timer
  | respawn (victimId : PlayerId) (delayMs : ℕ)
  | itemExpiry (itemId : ItemId) (delayMs : ℕ)
  deriving Repr, DecidableEq

/-- The `playerHit` socket handler (`server/index.js` lines 160–251).
Nondeterministic inputs of the source are taken as arguments: `newItemId`
stands for `Date.now() + Math.random().toString(36).substr(2,5)` and
`itemRand` for the `Math.random()` call deciding the item type. -/
def playerHit (roomIn : Option Room) (shooterId victimId : PlayerId) (damage : ℤ)
    (newItemId : ItemId) (itemRand : ℚ) :
    Option Room × List Event × List Timer :=
  match roomIn with
  | none => (none, [], [])
  | some room =>
    if room.status ≠ RoomStatus.PLAYING then (some room, [], []) else
    match lookupA victimId room.players with
    | none => (some room, [], [])
    | some victim =>
      -- victim.health -= damage; emit raw healthUpdate
      let victim1 : PlayerState := { victim with health := victim.health - damage }
      let room1 : Room := { room with players := setA victimId victim1 room.players }
      let ev1 : List Event := [Event.healthUpdate victimId victim1.health none]
      -- death branch: if (victim.health <= 0)
      let step2 : Room × List Event × List Timer :=
        if victim1.health ≤ 0 then
          let scores1 :=
            match lookupA shooterId room1.scores with
            | some s => setA shooterId (s + 1) room1.scores
            | none => room1.scores
          let victim2 : PlayerState := { victim1 with isDead := true }
          let room2 : Room :=
            { room1 with scores := scores1, players := setA victimId victim2 room1.players }
          (room2,
           ev1 ++ [Event.healthUpdate victimId 0 (some true),
                   Event.playerDied victimId shooterId],
           [Timer.respawn victimId 3000])
        else (room1, ev1, [])
      -- item spawn: re-fetch the room and re-check `health <= 0`
      let roomA := step2.1
      match lookupA victimId roomA.players with
      | none => (some roomA, step2.2.1, step2.2.2)
      | some v =>
        if v.health ≤ 0 then
          let itemType : ℕ := if itemRand > 1/2 then 50 else 51
          let item : Item := { id := newItemId, x := v.x, y := v.y, type := itemType }
          let roomB : Room := { roomA with items := setA newItemId item roomA.items }
          (some roomB, step2.2.1 ++ [Event.itemSpawn item],
           step2.2.2 ++ [Timer.itemExpiry newItemId 5000])
        else (some roomA, step2.2.1, step2.2.2)

/-- The five fixed respawn coordinates (`SAFE_SPAWNS` in the respawn
`setTimeout` callback). -/
def SAFE_SPAWNS : List (ℚ × ℚ) :=
  [(5/2, 5/2), (43/2, 5/2), (5/2, 43/2), (43/2, 43/2), (12, 12)]

/-- The respawn `setTimeout` callback (`server/index.js` lines 184–218).
`rand` stands for the `Math.random()` call; for `rand ∈ [0,1)` the index
`⌊rand * 5⌋` is in bounds, exactly as the source relies on. -/
def respawnCallback (roomIn : Option Room) (victimId : PlayerId) (rand : ℚ) :
    Option Room × List Event :=
  match roomIn with
  | none => (none, [])
  | some room =>
    match lookupA victimId room.players with
    | none => (some room, [])
    | some victim =>
      let spawn := SAFE_SPAWNS.getD (⌊rand * 5⌋).toNat (5/2, 5/2)
      let victim1 : PlayerState :=
        { victim with health := 100, isDead := false, x := spawn.1, y := spawn.2 }
      let room1 : Room := { room with players := setA victimId victim1 room.players }
      (some room1,
       [Event.healthUpdate victimId 100 (some false),
        Event.playerMoved victimId spawn.1 spawn.2 0,
        Event.playerRespawn victimId spawn.1 spawn.2])

/-- The item-expiry `setTimeout` callback (`server/index.js` lines 243–248).
The source closes over `roomRef` (it does not re-fetch `rooms[roomId]`), so
the callback acts on the captured room object. -/
def itemExpiryCallback (room : Room) (itemId : ItemId) : Room × List Event :=
  match lookupA itemId room.items with
  | some _ =>
    ({ room with items := eraseA itemId room.items }, [Event.itemRemoved itemId])
  | none => (room, [])

/-- The `pickupItem` socket handler (`server/index.js` lines 253–265),
acting on an existing room. -/
def pickupItemR (room : Room) (claimer : PlayerId) (itemId : ItemId) :
    Room × List Event :=
  match lookupA itemId room.items with
  | some item =>
    ({ room with items := eraseA itemId room.items },
     [Event.itemCollected claimer item.type, Event.itemRemoved itemId])
  | none => (room, [])

/-- The `pickupItem` handler with the `rooms[roomId]` lookup
(`if (!room || !room.items) return`). -/
def pickupItem (roomIn : Option Room) (claimer : PlayerId) (itemId : ItemId) :
    Option Room × List Event :=
  match roomIn with
  | none => (none, [])
  | some room =>
    let r := pickupItemR room claimer itemId
    (some r.1, r.2)

/-- `setInterval` period of the game loop in milliseconds
(`startGameLoop`, `server/index.js` line 313). -/
def TICK_INTERVAL_MS : ℕ := 1000

/-- Winner computation of `finishGame` (`server/index.js` lines 323–334):
fold over `Object.entries(room.scores)` in insertion order, strictly-greater
comparison against an accumulator starting at `(null, -1)`. -/
def computeWinner (scores : List (PlayerId × ℤ)) : Option PlayerId × ℤ :=
  scores.foldl (fun acc p => if p.2 > acc.2 then (some p.1, p.2) else acc) (none, -1)

/-- The `winnerName` resolution of `finishGame`: the winning player's
stored name, `"Unknown"` when the winner id is null or has left. -/
def winnerNameOf (room : Room) : String :=
  match (computeWinner room.scores).1 with
  | some pid =>
    match lookupA pid room.players with
    | some p => p.name
    | none => "Unknown"
  | none => "Unknown"

/-- `finishGame` (`server/index.js` lines 316–337): set FINISHED, clear the
interval, compute the winner, emit `gameOver`. -/
def finishGame (room : Room) : Room × List Event :=
  ({ room with status := RoomStatus.FINISHED, timerActive := false },
   [Event.gameOver (computeWinner room.scores).1 (winnerNameOf room)])

/-- One firing of the `setInterval` callback of `startGameLoop`
(`server/index.js` lines 302–313): decrement `timeLeft`, emit `timeUpdate`,
and call `finishGame` when `timeLeft <= 0`. -/
def tick (room : Room) : Room × List Event :=
  let room1 : Room := { room with timeLeft := room.timeLeft - 1 }
  if room1.timeLeft ≤ 0 then
    let f := finishGame room1
    (f.1, Event.timeUpdate room1.timeLeft :: f.2)
  else (room1, [Event.timeUpdate room1.timeLeft])

/-- `n` firings of the recurring interval; once `clearInterval` has run
(`timerActive = false`) no further callback fires. -/
def runTicks : ℕ → Room → Room × List Event
  | 0, r => (r, [])
  | n + 1, r =>
    if r.timerActive = false then (r, [])
    else
      let t := tick r
      let rest := runTicks n t.1
      (rest.1, t.2 ++ rest.2)

/-- The room object built by `createRoom` (`server/index.js` lines 61–69):
`timeLeft` is `duration * 60` seconds. -/
def createRoomState (duration : ℕ) : Room :=
  { players := [], items := [], scores := [], timeLeft := (duration : ℤ) * 60,
    status := RoomStatus.WAITING, timerActive := false }

/-! ## Interleaved item-lifecycle traces (for the exactly-once property)

A trace interleaves `pickupItem` claims from arbitrary clients with the
firing of item-expiry timers, all serialized by the Node event loop. -/

inductive ItemAction
  | pickup (claimer : PlayerId) (itemId : ItemId)
  | expire (itemId : ItemId)
  deriving Repr, DecidableEq

def applyItemAction (room : Room) : ItemAction → Room × List Event
  | ItemAction.pickup c i => pickupItemR room c i
  | ItemAction.expire i => itemExpiryCallback room i

def runItemTrace : Room → List ItemAction → Room × List Event
  | r, [] => (r, [])
  | r, a :: as =>
    let s := applyItemAction r a
    let rest := runItemTrace s.1 as
    (rest.1, s.2 ++ rest.2)

/-- Number of `itemRemoved` events for a given item id in an event list. -/
def removedCount (i : ItemId) (evs : List Event) : ℕ :=
  evs.countP (fun e => e = Event.itemRemoved i)

/-! ## Supporting lemmas -/

theorem setA_setA {α : Type} (k : String) (v1 v2 : α) :
    ∀ l : List (String × α), setA k v2 (setA k v1 l) = setA k v2 l := by
  intro l
  induction l with
  | nil => simp [setA]
  | cons hd tl ih =>
    by_cases h : hd.1 = k
    · simp [setA, h]
    · simp [setA, h, ih]

theorem setA_length_of_lookup_none {α : Type} (k : String) (v : α) :
    ∀ l : List (String × α), lookupA k l = none →
      (setA k v l).length = l.length + 1 := by
  intro l
  induction l with
  | nil => intro; simp [setA]
  | cons hd tl ih =>
    intro h
    by_cases hh : hd.1 = k
    · simp [lookupA, hh] at h
    · simp [lookupA, hh] at h
      simp [setA, hh, ih h]

/-- Full behaviour of `playerHit` on a lethal hit: the raw then forced
health updates, one `playerDied`, the score bump when the shooter is in the
score map, the item spawn, and the two scheduled timers. -/
theorem playerHit_lethal_spec (room : Room) (shooterId victimId : PlayerId)
    (damage : ℤ) (newItemId : ItemId) (itemRand : ℚ) (victim : PlayerState)
    (hstatus : room.status = RoomStatus.PLAYING)
    (hv : lookupA victimId room.players = some victim)
    (hlethal : victim.health - damage ≤ 0) :
    playerHit (some room) shooterId victimId damage newItemId itemRand =
      (some { room with
                players := setA victimId
                  { victim with health := victim.health - damage, isDead := true }
                  room.players,
                scores :=
                  match lookupA shooterId room.scores with
                  | some s => setA shooterId (s + 1) room.scores
                  | none => room.scores,
                items := setA newItemId
                  ⟨newItemId, victim.x, victim.y, if itemRand > 1/2 then 50 else 51⟩
                  room.items },
       [Event.healthUpdate victimId (victim.health - damage) none,
        Event.healthUpdate victimId 0 (some true),
        Event.playerDied victimId shooterId,
        Event.itemSpawn ⟨newItemId, victim.x, victim.y, if itemRand > 1/2 then 50 else 51⟩],
       [Timer.respawn victimId 3000, Timer.itemExpiry newItemId 5000]) := by
  simp only [playerHit, hstatus, hv, ne_eq, not_true_eq_false, if_false,
    reduceIte, hlethal, if_pos, lookupA_setA_self, setA_setA]
  rfl

/-- Behaviour of `playerHit` on a non-lethal hit: only the raw
`healthUpdate` is emitted, nothing is scheduled. -/
theorem playerHit_nonlethal_spec (room : Room) (shooterId victimId : PlayerId)
    (damage : ℤ) (newItemId : ItemId) (itemRand : ℚ) (victim : PlayerState)
    (hstatus : room.status = RoomStatus.PLAYING)
    (hv : lookupA victimId room.players = some victim)
    (hsurv : 0 < victim.health - damage) :
    playerHit (some room) shooterId victimId damage newItemId itemRand =
      (some { room with
                players := setA victimId
                  { victim with health := victim.health - damage } room.players },
       [Event.healthUpdate victimId (victim.health - damage) none],
       []) := by
  have hns : ¬ victim.health - damage ≤ 0 := not_le.mpr hsurv
  simp only [playerHit, hstatus, hv, ne_eq, not_true_eq_false, if_false,
    reduceIte, hns, lookupA_setA_self]

/-! ## Concrete data used by witnesses and counterexamples -/

def alicePlayer : PlayerState :=
  { x := 5/2, y := 5/2, angle := 0, health := 100, isDead := false, name := "alice" }

def bobPlayer : PlayerState :=
  { x := 3, y := 4, angle := 0, health := 100, isDead := false, name := "bob" }

def sampleRoom : Room :=
  { players := [("A", alicePlayer), ("B", bobPlayer)], items := [],
    scores := [("A", 0), ("B", 0)], timeLeft := 120,
    status := RoomStatus.PLAYING, timerActive := true }

/-- `sampleRoom` right after a lethal hit on B: B's stored health is 0,
`isDead` is set, A has one point, the dropped item is still live. -/
def sampleDeadRoom : Room :=
  { players := [("A", alicePlayer),
                ("B", { bobPlayer with health := 0, isDead := true })],
    items := [("i1", ⟨"i1", 3, 4, 50⟩)],
    scores := [("A", 1), ("B", 0)], timeLeft := 120,
    status := RoomStatus.PLAYING, timerActive := true }

/-! ## Claim C10 -/

/-- Claim C10: for every `playerHit` applied to an existing victim in a
PLAYING room, the first emitted event is a `healthUpdate` carrying the raw
decremented stored health and no `isDead` flag; on a lethal hit this raw
value is ≤ 0 and the event is followed immediately by the forced
`healthUpdate` with health exactly 0 and `isDead` true. -/
theorem claim_C10_raw_health_update_first (room : Room)
    (shooterId victimId : PlayerId) (damage : ℤ) (newItemId : ItemId)
    (itemRand : ℚ) (victim : PlayerState)
    (hstatus : room.status = RoomStatus.PLAYING)
    (hv : lookupA victimId room.players = some victim) :
    (∃ rest : List Event,
      (playerHit (some room) shooterId victimId damage newItemId itemRand).2.1 =
        Event.healthUpdate victimId (victim.health - damage) none :: rest) ∧
    (victim.health - damage ≤ 0 →
      ∃ rest : List Event,
        (playerHit (some room) shooterId victimId damage newItemId itemRand).2.1 =
          Event.healthUpdate victimId (victim.health - damage) none ::
            Event.healthUpdate victimId 0 (some true) :: rest) := by
  constructor
  · rcases le_or_lt (victim.health - damage) 0 with hle | hgt
    · rw [playerHit_lethal_spec room shooterId victimId damage newItemId itemRand
        victim hstatus hv hle]
      exact ⟨_, rfl⟩
    · rw [playerHit_nonlethal_spec room shooterId victimId damage newItemId itemRand
        victim hstatus hv hgt]
      exact ⟨[], rfl⟩
  · intro hle
    rw [playerHit_lethal_spec room shooterId victimId damage newItemId itemRand
      victim hstatus hv hle]
    exact ⟨_, rfl⟩

/-- Witness for C10 at a concrete lethal hit. -/
theorem claim_C10_witness :
    sampleRoom.status = RoomStatus.PLAYING ∧
    lookupA "B" sampleRoom.players = some bobPlayer ∧
    ((∃ rest : List Event,
        (playerHit (some sampleRoom) "A" "B" 100 "i1" (3/4)).2.1 =
          Event.healthUpdate "B" (bobPlayer.health - 100) none :: rest) ∧
     (bobPlayer.health - 100 ≤ 0 →
        ∃ rest : List Event,
          (playerHit (some sampleRoom) "A" "B" 100 "i1" (3/4)).2.1 =
            Event.healthUpdate "B" (bobPlayer.health - 100) none ::
              Event.healthUpdate "B" 0 (some true) :: rest)) :=
  ⟨rfl, by decide,
   claim_C10_raw_health_update_first sampleRoom "A" "B" 100 "i1" (3/4) bobPlayer
     rfl (by decide)⟩

/-! ## Claim C6 -/

/-- Counterexample to claim C6: a lethal `playerHit` whose `shooterId` names
nobody in the room's score map.  The hit is lethal — a `playerDied` is
emitted — yet no score is incremented: the source guards the increment with
`if (room.scores[shooterId] !== undefined)`, so the increment is not
unconditional. -/
theorem claim_C6_counterexample :
    (playerHit (some sampleRoom) "GHOST" "B" 100 "i1" (3/4)).1.map Room.scores =
        some [("A", 0), ("B", 0)] ∧
    (playerHit (some sampleRoom) "GHOST" "B" 100 "i1" (3/4)).2.1.countP
        (fun e => e = Event.playerDied "B" "GHOST") = 1 := by
  decide

/-- Claim C6 (amended): on a lethal hit in a PLAYING room, the shooter's
score is incremented by exactly 1 whenever the shooter id is present in the
room's score map — including when the shooter is the victim itself — and the
score map is left unchanged when the shooter id is absent from it. -/
theorem claim_C6_amended (room : Room) (shooterId victimId : PlayerId)
    (damage : ℤ) (newItemId : ItemId) (itemRand : ℚ) (victim : PlayerState)
    (hstatus : room.status = RoomStatus.PLAYING)
    (hv : lookupA victimId room.players = some victim)
    (hlethal : victim.health - damage ≤ 0) :
    ∃ room' : Room,
      (playerHit (some room) shooterId victimId damage newItemId itemRand).1 =
        some room' ∧
      (∀ s : ℤ, lookupA shooterId room.scores = some s →
        room'.scores = setA shooterId (s + 1) room.scores ∧
        lookupA shooterId room'.scores = some (s + 1)) ∧
      (lookupA shooterId room.scores = none → room'.scores = room.scores) := by
  rw [playerHit_lethal_spec room shooterId victimId damage newItemId itemRand
    victim hstatus hv hlethal]
  refine ⟨_, rfl, ?_, ?_⟩
  · intro s hs
    rw [hs]
    exact ⟨rfl, lookupA_setA_self shooterId (s + 1) room.scores⟩
  · intro hs
    rw [hs]

/-- Witness for the amended C6: a self-kill — the shooter is the victim and
is in the score map — bumps the shooter's own score from 0 to 1. -/
theorem claim_C6_amended_witness :
    sampleRoom.status = RoomStatus.PLAYING ∧
    lookupA "B" sampleRoom.players = some bobPlayer ∧
    bobPlayer.health - 150 ≤ 0 ∧
    ∃ room' : Room,
      (playerHit (some sampleRoom) "B" "B" 150 "i1" (3/4)).1 = some room' ∧
      (∀ s : ℤ, lookupA "B" sampleRoom.scores = some s →
        room'.scores = setA "B" (s + 1) sampleRoom.scores ∧
        lookupA "B" room'.scores = some (s + 1)) ∧
      (lookupA "B" sampleRoom.scores = none → room'.scores = sampleRoom.scores) :=
  ⟨rfl, by decide, by decide,
   claim_C6_amended sampleRoom "B" "B" 150 "i1" (3/4) bobPlayer rfl (by decide)
     (by decide)⟩

/-! ## Claim C1 -/

/-- Counterexample to claim C1: two successive lethal `playerHit` events on
the same victim, the second arriving before the respawn fires.  After the
first hit the shooter's score is 1 and one loot item is live; after the
second hit on the already-dead victim the score is 2 and a second item has
been spawned — the code does not guard idempotence. -/
theorem claim_C1_counterexample :
    ((playerHit (some sampleRoom) "A" "B" 100 "i1" (3/4)).1.map
        (fun r => (lookupA "A" r.scores, r.items.length)) = some (some 1, 1)) ∧
    (((playerHit (some sampleRoom) "A" "B" 100 "i1" (3/4)).1.bind
        (fun r1 => (playerHit (some r1) "A" "B" 10 "i2" (1/4)).1)).map
        (fun r2 => (lookupA "A" r2.scores, r2.items.length)) = some (some 2, 2)) := by
  decide

/-- Claim C1 (amended): in a PLAYING room, every `playerHit` that leaves an
existing victim's stored health ≤ 0 emits the forced
`healthUpdate{health:0,isDead:true}` and exactly one `playerDied` for that
hit event; however the handler is not idempotent — this holds equally for a
second hit on an already-dead victim before its respawn fires, which
increments the shooter's score again (when the shooter is in the score map)
and spawns a second loot item. -/
theorem claim_C1_amended (room : Room) (shooterId victimId : PlayerId)
    (damage : ℤ) (newItemId : ItemId) (itemRand : ℚ) (victim : PlayerState)
    (hstatus : room.status = RoomStatus.PLAYING)
    (hv : lookupA victimId room.players = some victim)
    (hlethal : victim.health - damage ≤ 0) :
    ∃ room' : Room,
      (playerHit (some room) shooterId victimId damage newItemId itemRand).1 =
        some room' ∧
      Event.healthUpdate victimId 0 (some true) ∈
        (playerHit (some room) shooterId victimId damage newItemId itemRand).2.1 ∧
      (playerHit (some room) shooterId victimId damage newItemId itemRand).2.1.countP
        (fun e => e = Event.playerDied victimId shooterId) = 1 ∧
      (∀ s : ℤ, lookupA shooterId room.scores = some s →
        lookupA shooterId room'.scores = some (s + 1)) ∧
      (lookupA newItemId room.items = none →
        room'.items.length = room.items.length + 1) := by
  rw [playerHit_lethal_spec room shooterId victimId damage newItemId itemRand
    victim hstatus hv hlethal]
  refine ⟨_, rfl, ?_, ?_, ?_, ?_⟩
  · simp
  · simp [List.countP_cons]
  · intro s hs
    rw [hs]
    exact lookupA_setA_self shooterId (s + 1) room.scores
  · intro hfresh
    exact setA_length_of_lookup_none newItemId _ room.items hfresh

/-- Witness for the amended C1: the second hit on the already-dead victim in
`sampleDeadRoom` re-triggers the death path. -/
theorem claim_C1_amended_witness :
    sampleDeadRoom.status = RoomStatus.PLAYING ∧
    lookupA "B" sampleDeadRoom.players =
      some { bobPlayer with health := 0, isDead := true } ∧
    ({ bobPlayer with health := 0, isDead := true } : PlayerState).health - 10 ≤ 0 ∧
    ∃ room' : Room,
      (playerHit (some sampleDeadRoom) "A" "B" 10 "i2" (1/4)).1 = some room' ∧
      Event.healthUpdate "B" 0 (some true) ∈
        (playerHit (some sampleDeadRoom) "A" "B" 10 "i2" (1/4)).2.1 ∧
      (playerHit (some sampleDeadRoom) "A" "B" 10 "i2" (1/4)).2.1.countP
        (fun e => e = Event.playerDied "B" "A") = 1 ∧
      (∀ s : ℤ, lookupA "A" sampleDeadRoom.scores = some s →
        lookupA "A" room'.scores = some (s + 1)) ∧
      (lookupA "i2" sampleDeadRoom.items = none →
        room'.items.length = sampleDeadRoom.items.length + 1) :=
  ⟨rfl, by decide, by decide,
   claim_C1_amended sampleDeadRoom "A" "B" 10 "i2" (1/4)
     { bobPlayer with health := 0, isDead := true } rfl (by decide) (by decide)⟩

/-! ## Claim C4 -/

/-- `Math.floor(Math.random() * 5)` selects index `k` exactly when the
random draw falls in `[k/5, (k+1)/5)` — the uniform-choice characterisation
of the spawn-point selection. -/
theorem floor_five_eq_iff (rand : ℚ) (k : ℕ) (h0 : 0 ≤ rand) (_h1 : rand < 1)
    (_hk : k < 5) :
    (⌊rand * 5⌋).toNat = k ↔ (k : ℚ) / 5 ≤ rand ∧ rand < ((k : ℚ) + 1) / 5 := by
  have hf0 : 0 ≤ ⌊rand * 5⌋ := Int.floor_nonneg.mpr (by positivity)
  have hcast : (⌊rand * 5⌋).toNat = k ↔ ⌊rand * 5⌋ = (k : ℤ) := by omega
  rw [hcast, Int.floor_eq_iff]
  constructor
  · rintro ⟨ha, hb⟩
    constructor
    · push_cast at ha ⊢
      linarith
    · push_cast at hb ⊢
      linarith
  · rintro ⟨ha, hb⟩
    constructor
    · push_cast at ha ⊢
      linarith
    · push_cast at hb ⊢
      linarith

/-- Claim C4: the respawn callback is scheduled exactly 3000 ms after every
lethal hit; when it fires with the room or the victim gone it is a no-op;
otherwise it resets health to exactly 100, clears `isDead`, moves the victim
to one of the five safe-spawn coordinates — index `k` being chosen exactly
when the uniform draw lands in `[k/5,(k+1)/5)` — and emits the respawn
notice addressed only to the victim. -/
theorem claim_C4_respawn (room : Room) (victimId : PlayerId) (rand : ℚ)
    (h0 : 0 ≤ rand) (h1 : rand < 1) :
    (∀ (shooterId : PlayerId) (damage : ℤ) (newItemId : ItemId) (itemRand : ℚ)
        (victim : PlayerState),
        room.status = RoomStatus.PLAYING →
        lookupA victimId room.players = some victim →
        victim.health - damage ≤ 0 →
        Timer.respawn victimId 3000 ∈
          (playerHit (some room) shooterId victimId damage newItemId itemRand).2.2) ∧
    respawnCallback none victimId rand = (none, []) ∧
    (lookupA victimId room.players = none →
      respawnCallback (some room) victimId rand = (some room, [])) ∧
    (∀ victim : PlayerState, lookupA victimId room.players = some victim →
      ∃ spawn : ℚ × ℚ,
        spawn ∈ SAFE_SPAWNS ∧
        spawn = SAFE_SPAWNS.getD (⌊rand * 5⌋).toNat (5/2, 5/2) ∧
        (∀ k : ℕ, k < 5 →
          ((⌊rand * 5⌋).toNat = k ↔ (k : ℚ) / 5 ≤ rand ∧ rand < ((k : ℚ) + 1) / 5)) ∧
        respawnCallback (some room) victimId rand =
          (some { room with
                    players := setA victimId
                      { victim with health := 100, isDead := false,
                                    x := spawn.1, y := spawn.2 }
                      room.players },
           [Event.healthUpdate victimId 100 (some false),
            Event.playerMoved victimId spawn.1 spawn.2 0,
            Event.playerRespawn victimId spawn.1 spawn.2])) := by
  refine ⟨?_, rfl, ?_, ?_⟩
  · intro shooterId damage newItemId itemRand victim hstatus hv hlethal
    rw [playerHit_lethal_spec room shooterId victimId damage newItemId itemRand
      victim hstatus hv hlethal]
    simp
  · intro hnone
    simp only [respawnCallback, hnone]
  · intro victim hv
    have hidx : (⌊rand * 5⌋).toNat < 5 := by
      have : ⌊rand * 5⌋ < 5 := by
        have : rand * 5 < 5 := by linarith
        exact Int.floor_lt.mpr (by push_cast; linarith)
      omega
    refine ⟨SAFE_SPAWNS.getD (⌊rand * 5⌋).toNat (5/2, 5/2), ?_, rfl, ?_, ?_⟩
    · interval_cases h : (⌊rand * 5⌋).toNat <;> simp [SAFE_SPAWNS]
    · intro k hk
      exact floor_five_eq_iff rand k h0 h1 hk
    · simp only [respawnCallback, hv]

/-- Witness for C4 at `rand = 7/10`, which selects spawn index 3,
coordinates `(21.5, 21.5)`. -/
theorem claim_C4_respawn_witness :
    (0 : ℚ) ≤ 7/10 ∧ (7/10 : ℚ) < 1 ∧
    ((∀ (shooterId : PlayerId) (damage : ℤ) (newItemId : ItemId) (itemRand : ℚ)
        (victim : PlayerState),
        sampleRoom.status = RoomStatus.PLAYING →
        lookupA "B" sampleRoom.players = some victim →
        victim.health - damage ≤ 0 →
        Timer.respawn "B" 3000 ∈
          (playerHit (some sampleRoom) shooterId "B" damage newItemId itemRand).2.2) ∧
     respawnCallback none "B" (7/10) = (none, []) ∧
     (lookupA "B" sampleRoom.players = none →
       respawnCallback (some sampleRoom) "B" (7/10) = (some sampleRoom, [])) ∧
     (∀ victim : PlayerState, lookupA "B" sampleRoom.players = some victim →
       ∃ spawn : ℚ × ℚ,
         spawn ∈ SAFE_SPAWNS ∧
         spawn = SAFE_SPAWNS.getD (⌊(7/10 : ℚ) * 5⌋).toNat (5/2, 5/2) ∧
         (∀ k : ℕ, k < 5 →
           ((⌊(7/10 : ℚ) * 5⌋).toNat = k ↔
             (k : ℚ) / 5 ≤ 7/10 ∧ (7/10 : ℚ) < ((k : ℚ) + 1) / 5)) ∧
         respawnCallback (some sampleRoom) "B" (7/10) =
           (some { sampleRoom with
                     players := setA "B"
                       { victim with health := 100, isDead := false,
                                     x := spawn.1, y := spawn.2 }
                       sampleRoom.players },
            [Event.healthUpdate "B" 100 (some false),
             Event.playerMoved "B" spawn.1 spawn.2 0,
             Event.playerRespawn "B" spawn.1 spawn.2]))) :=
  ⟨by norm_num, by norm_num,
   claim_C4_respawn sampleRoom "B" (7/10) (by norm_num) (by norm_num)⟩

/-! ## Claim C3 -/

theorem lookupA_eq_none_of_not_mem {α : Type} (k : String) :
    ∀ l : List (String × α), k ∉ l.map Prod.fst → lookupA k l = none := by
  intro l
  induction l with
  | nil => intro; rfl
  | cons hd tl ih =>
    intro h
    simp only [List.map_cons, List.mem_cons] at h
    push_neg at h
    have hne : ¬ hd.1 = k := fun hk => h.1 hk.symm
    simp [lookupA, hne, ih h.2]

theorem eraseA_keys_sublist {α : Type} (k : String) :
    ∀ l : List (String × α),
      List.Sublist ((eraseA k l).map Prod.fst) (l.map Prod.fst) := by
  intro l
  induction l with
  | nil => simp [eraseA]
  | cons hd tl ih =>
    by_cases hh : hd.1 = k
    · simp only [eraseA, if_pos hh, List.map_cons]
      exact List.sublist_cons_of_sublist _ (List.Sublist.refl _)
    · simp only [eraseA, if_neg hh, List.map_cons]
      exact List.Sublist.cons₂ _ ih

theorem lookupA_eraseA_self {α : Type} (k : String) :
    ∀ l : List (String × α), (l.map Prod.fst).Nodup →
      lookupA k (eraseA k l) = none := by
  intro l
  induction l with
  | nil => intro; rfl
  | cons hd tl ih =>
    intro hnd
    simp only [List.map_cons, List.nodup_cons] at hnd
    by_cases hh : hd.1 = k
    · simp only [eraseA, if_pos hh]
      exact lookupA_eq_none_of_not_mem k tl (hh ▸ hnd.1)
    · simp only [eraseA, if_neg hh, lookupA, ih hnd.2]

/-- Processing any interleaving of pickups and expiries from a state where
item `i` is absent emits no `itemRemoved` for `i`. -/
theorem removedCount_trace_absent (i : ItemId) :
    ∀ (as : List ItemAction) (room : Room),
      lookupA i room.items = none →
      removedCount i (runItemTrace room as).2 = 0 := by
  intro as
  induction as with
  | nil => intro room _; rfl
  | cons a as ih =>
    intro room habs
    cases a with
    | pickup c j =>
      by_cases hj : j = i
      · subst hj
        simp only [runItemTrace, applyItemAction, pickupItemR, habs]
        simpa [removedCount] using ih room habs
      · simp only [runItemTrace, applyItemAction, pickupItemR]
        cases hlj : lookupA j room.items with
        | none =>
          simpa [removedCount] using ih room habs
        | some itemJ =>
          have habs' : lookupA i (eraseA j room.items) = none := by
            rw [lookupA_eraseA_ne j i hj]
            exact habs
          have h0 := ih { room with items := eraseA j room.items } habs'
          simp only [removedCount] at h0 ⊢
          simp [List.countP_append, List.countP_cons, h0, hj]
    | expire j =>
      by_cases hj : j = i
      · subst hj
        simp only [runItemTrace, applyItemAction, itemExpiryCallback, habs]
        simpa [removedCount] using ih room habs
      · simp only [runItemTrace, applyItemAction, itemExpiryCallback]
        cases hlj : lookupA j room.items with
        | none =>
          simpa [removedCount] using ih room habs
        | some itemJ =>
          have habs' : lookupA i (eraseA j room.items) = none := by
            rw [lookupA_eraseA_ne j i hj]
            exact habs
          have h0 := ih { room with items := eraseA j room.items } habs'
          simp only [removedCount] at h0 ⊢
          simp [List.countP_append, List.countP_cons, h0, hj]

/-- From a state where item `i` is live (and item keys are unique, as the
fresh random ids guarantee), any interleaving of pickups and expiries that
contains the firing of `i`'s expiry timer emits `itemRemoved` for `i`
exactly once — whether the item expired or was picked up first. -/
theorem removedCount_trace_present (i : ItemId) :
    ∀ (as : List ItemAction) (room : Room) (item : Item),
      (room.items.map Prod.fst).Nodup →
      lookupA i room.items = some item →
      ItemAction.expire i ∈ as →
      removedCount i (runItemTrace room as).2 = 1 := by
  intro as
  induction as with
  | nil => intro room item _ _ hexp; cases hexp
  | cons a as ih =>
    intro room item hnd hlive hexp
    have hsub : ∀ j : String, ((eraseA j room.items).map Prod.fst).Nodup :=
      fun j => (eraseA_keys_sublist j room.items).nodup hnd
    cases a with
    | pickup c j =>
      by_cases hj : j = i
      · subst hj
        simp only [runItemTrace, applyItemAction, pickupItemR, hlive]
        have habs := lookupA_eraseA_self j room.items hnd
        have h0 := removedCount_trace_absent j as
          { room with items := eraseA j room.items } habs
        simp only [removedCount] at h0 ⊢
        simp [List.countP_append, List.countP_cons, h0]
      · have hexp' : ItemAction.expire i ∈ as := by
          cases hexp with
          | tail _ h => exact h
        simp only [runItemTrace, applyItemAction, pickupItemR]
        cases hlj : lookupA j room.items with
        | none =>
          simpa [removedCount] using ih room item hnd hlive hexp'
        | some itemJ =>
          have hlive' : lookupA i (eraseA j room.items) = some item := by
            rw [lookupA_eraseA_ne j i hj]
            exact hlive
          have h1 := ih { room with items := eraseA j room.items } item (hsub j)
            hlive' hexp'
          simp only [removedCount] at h1 ⊢
          simp [List.countP_append, List.countP_cons, h1, hj]
    | expire j =>
      by_cases hj : j = i
      · subst hj
        simp only [runItemTrace, applyItemAction, itemExpiryCallback, hlive]
        have habs := lookupA_eraseA_self j room.items hnd
        have h0 := removedCount_trace_absent j as
          { room with items := eraseA j room.items } habs
        simp only [removedCount] at h0 ⊢
        simp [List.countP_append, List.countP_cons, h0]
      · have hexp' : ItemAction.expire i ∈ as := by
          cases hexp with
          | head => exact absurd rfl hj
          | tail _ h => exact h
        simp only [runItemTrace, applyItemAction, itemExpiryCallback]
        cases hlj : lookupA j room.items with
        | none =>
          simpa [removedCount] using ih room item hnd hlive hexp'
        | some itemJ =>
          have hlive' : lookupA i (eraseA j room.items) = some item := by
            rw [lookupA_eraseA_ne j i hj]
            exact hlive
          have h1 := ih { room with items := eraseA j room.items } item (hsub j)
            hlive' hexp'
          simp only [removedCount] at h1 ⊢
          simp [List.countP_append, List.countP_cons, h1, hj]

/-- Claim C3: every item spawned on a death has its expiry scheduled exactly
5000 ms out; the first `pickupItem` for a live id emits `itemCollected` to
the claimer and `itemRemoved` to the room and deletes the item; a
`pickupItem` for an id no longer in the item map emits nothing; and across
any interleaving containing the expiry firing, `itemRemoved` for that id
fires exactly once. -/
theorem claim_C3_item_lifecycle (room : Room) (claimer : PlayerId) (i : ItemId)
    (item : Item) (as : List ItemAction)
    (hnd : (room.items.map Prod.fst).Nodup)
    (hlive : lookupA i room.items = some item)
    (hexp : ItemAction.expire i ∈ as) :
    (∀ (shooterId victimId : PlayerId) (damage : ℤ) (newItemId : ItemId)
        (itemRand : ℚ) (victim : PlayerState),
        room.status = RoomStatus.PLAYING →
        lookupA victimId room.players = some victim →
        victim.health - damage ≤ 0 →
        Timer.itemExpiry newItemId 5000 ∈
          (playerHit (some room) shooterId victimId damage newItemId itemRand).2.2) ∧
    pickupItemR room claimer i =
      ({ room with items := eraseA i room.items },
       [Event.itemCollected claimer item.type, Event.itemRemoved i]) ∧
    (∀ r : Room, lookupA i r.items = none → pickupItemR r claimer i = (r, [])) ∧
    itemExpiryCallback room i =
      ({ room with items := eraseA i room.items }, [Event.itemRemoved i]) ∧
    removedCount i (runItemTrace room as).2 = 1 := by
  refine ⟨?_, ?_, ?_, ?_, ?_⟩
  · intro shooterId victimId damage newItemId itemRand victim hstatus hv hlethal
    rw [playerHit_lethal_spec room shooterId victimId damage newItemId itemRand
      victim hstatus hv hlethal]
    simp
  · simp only [pickupItemR, hlive]
  · intro r habs
    simp only [pickupItemR, habs]
  · simp only [itemExpiryCallback, hlive]
  · exact removedCount_trace_present i as room item hnd hlive hexp

/-- Witness for C3: in `sampleDeadRoom` the item `i1` is live; a pickup by A
followed by the expiry firing removes it exactly once. -/
theorem claim_C3_item_lifecycle_witness :
    (sampleDeadRoom.items.map Prod.fst).Nodup ∧
    lookupA "i1" sampleDeadRoom.items = some (⟨"i1", 3, 4, 50⟩ : Item) ∧
    ItemAction.expire "i1" ∈
      [ItemAction.pickup "A" "i1", ItemAction.expire "i1"] ∧
    removedCount "i1"
      (runItemTrace sampleDeadRoom
        [ItemAction.pickup "A" "i1", ItemAction.expire "i1"]).2 = 1 :=
  ⟨by decide, by decide, by decide,
   (claim_C3_item_lifecycle sampleDeadRoom "A" "i1" ⟨"i1", 3, 4, 50⟩
     [ItemAction.pickup "A" "i1", ItemAction.expire "i1"]
     (by decide) (by decide) (by decide)).2.2.2.2⟩

/-! ## Claim C5 -/

/-- The `timeUpdate` values emitted over a full countdown from `k`:
`k-1, k-2, …, 0` (the callback decrements before emitting). -/
def countdownEvents (k : ℕ) : List Event :=
  (List.range k).map (fun i : ℕ => Event.timeUpdate ((k : ℤ) - 1 - (i : ℤ)))

theorem countdownEvents_succ (k : ℕ) :
    countdownEvents (k + 1) = Event.timeUpdate (k : ℤ) :: countdownEvents k := by
  unfold countdownEvents
  rw [List.range_succ_eq_map, List.map_cons, List.map_map]
  congr 1
  · congr 1
    push_cast
    ring
  · apply List.map_congr_left
    intro i _
    simp only [Function.comp_apply]
    congr 1
    push_cast
    ring

theorem countdownEvents_length (k : ℕ) : (countdownEvents k).length = k := by
  rw [countdownEvents, List.length_map]
  exact List.length_range k

theorem runTicks_inactive (n : ℕ) (r : Room) (h : r.timerActive = false) :
    runTicks n r = (r, []) := by
  cases n <;> simp [runTicks, h]

/-- Invariant fold lemma for `computeWinner`: either nothing beats the
accumulator, or the result is the last strict improvement, every earlier
entry is strictly below it and every later entry is at most it. -/
theorem computeWinner_aux (l : List (PlayerId × ℤ)) :
    ∀ (w0 : Option PlayerId) (m0 : ℤ),
      (l.foldl (fun acc p => if p.2 > acc.2 then (some p.1, p.2) else acc) (w0, m0)
          = (w0, m0) ∧ ∀ p ∈ l, p.2 ≤ m0) ∨
      (∃ l1 p l2, l = l1 ++ p :: l2 ∧
        l.foldl (fun acc q => if q.2 > acc.2 then (some q.1, q.2) else acc) (w0, m0)
          = (some p.1, p.2) ∧
        m0 < p.2 ∧ (∀ q ∈ l1, q.2 < p.2) ∧ (∀ q ∈ l2, q.2 ≤ p.2)) := by
  induction l with
  | nil =>
    intro w0 m0
    left
    exact ⟨rfl, by simp⟩
  | cons hd tl ih =>
    intro w0 m0
    by_cases hhd : hd.2 > m0
    · rcases ih hd.1 hd.2 with ⟨heq, hall⟩ | ⟨l1, p, l2, hsplit, heq, hlt, hl1, hl2⟩
      · right
        refine ⟨[], hd, tl, by simp, ?_, hhd, by simp, hall⟩
        simp only [List.foldl_cons, if_pos hhd]
        exact heq
      · right
        refine ⟨hd :: l1, p, l2, by simp [hsplit], ?_, lt_trans hhd hlt, ?_, hl2⟩
        · simp only [List.foldl_cons, if_pos hhd]
          exact heq
        · intro q hq
          rcases List.mem_cons.mp hq with rfl | hq
          · exact hlt
          · exact hl1 q hq
    · push_neg at hhd
      rcases ih w0 m0 with ⟨heq, hall⟩ | ⟨l1, p, l2, hsplit, heq, hlt, hl1, hl2⟩
      · left
        refine ⟨?_, ?_⟩
        · simp only [List.foldl_cons, if_neg (not_lt.mpr hhd)]
          exact heq
        · intro p hp
          rcases List.mem_cons.mp hp with rfl | hp
          · exact hhd
          · exact hall p hp
      · right
        refine ⟨hd :: l1, p, l2, by simp [hsplit], ?_, hlt, ?_, hl2⟩
        · simp only [List.foldl_cons, if_neg (not_lt.mpr hhd)]
          exact heq
        · intro q hq
          rcases List.mem_cons.mp hq with rfl | hq
          · exact lt_of_le_of_lt hhd hlt
          · exact hl1 q hq

/-- The winner of a nonempty score map with non-negative scores is the
FIRST entry attaining the maximum score: everything before it is strictly
smaller, everything in the map is at most it. -/
theorem computeWinner_spec (scores : List (PlayerId × ℤ))
    (hne : scores ≠ []) (hnn : ∀ p ∈ scores, 0 ≤ p.2) :
    ∃ w m l1 l2,
      computeWinner scores = (some w, m) ∧
      scores = l1 ++ (w, m) :: l2 ∧
      (∀ q ∈ l1, q.2 < m) ∧ (∀ q ∈ scores, q.2 ≤ m) := by
  rcases computeWinner_aux scores none (-1) with ⟨_, hall⟩ |
    ⟨l1, p, l2, hsplit, heq, _, hl1, hl2⟩
  · cases scores with
    | nil => exact absurd rfl hne
    | cons hd tl =>
      have h1 := hall hd (List.mem_cons_self hd tl)
      have h2 := hnn hd (List.mem_cons_self hd tl)
      omega
  · refine ⟨p.1, p.2, l1, l2, ?_, ?_, hl1, ?_⟩
    · rw [computeWinner]
      exact heq
    · simpa using hsplit
    · intro q hq
      rw [hsplit] at hq
      rcases List.mem_append.mp hq with h | h
      · exact le_of_lt (hl1 q h)
      · rcases List.mem_cons.mp h with rfl | h
        · exact le_refl _
        · exact hl2 q h

/-- Running the recurring interval from a countdown of `k ≥ 1`: exactly `k`
ticks fire (any surplus scheduled firings are no-ops because the interval
has been cleared), emitting `timeUpdate k-1, …, 0`, then the room is
FINISHED with the timer cleared and the single `gameOver` carries the
computed winner. -/
theorem runTicks_countdown :
    ∀ (k : ℕ) (r : Room) (n : ℕ), 1 ≤ k → r.timeLeft = (k : ℤ) →
      r.timerActive = true → k ≤ n →
      runTicks n r =
        ({ r with timeLeft := 0, status := RoomStatus.FINISHED,
                  timerActive := false },
         countdownEvents k ++
           [Event.gameOver (computeWinner r.scores).1 (winnerNameOf r)]) := by
  intro k
  induction k with
  | zero => intro r n h1; omega
  | succ k ih =>
    intro r n h1 ht ha hn
    obtain ⟨n', rfl⟩ : ∃ n', n = n' + 1 := ⟨n - 1, by omega⟩
    by_cases hk : k = 0
    · subst hk
      have htick : tick r =
          ({ r with timeLeft := 0, status := RoomStatus.FINISHED,
                    timerActive := false },
           [Event.timeUpdate 0,
            Event.gameOver (computeWinner r.scores).1 (winnerNameOf r)]) := by
        simp [tick, ht, finishGame, winnerNameOf]
      have h01 : countdownEvents 1 = [Event.timeUpdate 0] := by decide
      simp only [runTicks, ha, Bool.true_eq_false, if_false, htick]
      rw [runTicks_inactive n' _ rfl, h01]
      simp
    · have hk1 : 1 ≤ k := by omega
      have hn' : k ≤ n' := by omega
      have htick : tick r =
          ({ r with timeLeft := (k : ℤ) }, [Event.timeUpdate (k : ℤ)]) := by
        have harith : ((k : ℤ) + 1) - 1 = (k : ℤ) := by ring
        have hpos : ¬ ((k : ℤ) ≤ 0) := by
          simp only [not_le]
          exact_mod_cast Nat.pos_of_ne_zero hk
        simp only [tick, ht]
        push_cast
        rw [harith]
        simp [hpos]
      have htick' : tick r =
          ({ r with timeLeft := (k : ℤ), timerActive := true },
           [Event.timeUpdate (k : ℤ)]) := by
        rw [htick, ha]
      have ihr := ih { r with timeLeft := (k : ℤ), timerActive := true } n'
        hk1 rfl rfl hn'
      simp only [runTicks, ha, Bool.true_eq_false, if_false, htick']
      rw [countdownEvents_succ]
      simp only [ihr]
      simp [winnerNameOf]

/-- Claim C5: a room created with duration `d` starts its countdown at
`d*60` seconds; each 1000 ms interval firing decrements it by one and emits
one `timeUpdate`; after exactly `d*60` firings the countdown reaches zero,
the room transitions to FINISHED, the interval is cleared, and a single
`gameOver` is emitted whose `winnerId` is the first entry of the score map
attaining the maximal score (strictly maximal wins; ties go to the
first-seen entry in insertion order). -/
theorem claim_C5_game_loop (d : ℕ) (r : Room) (n : ℕ)
    (hd : 1 ≤ d)
    (ht : r.timeLeft = ((d * 60 : ℕ) : ℤ))
    (ha : r.timerActive = true)
    (hn : d * 60 ≤ n)
    (hne : r.scores ≠ []) (hnn : ∀ p ∈ r.scores, 0 ≤ p.2) :
    (createRoomState d).timeLeft = (d : ℤ) * 60 ∧
    TICK_INTERVAL_MS = 1000 ∧
    (countdownEvents (d * 60)).length = d * 60 ∧
    ∃ w m l1 l2,
      runTicks n r =
        ({ r with timeLeft := 0, status := RoomStatus.FINISHED,
                  timerActive := false },
         countdownEvents (d * 60) ++
           [Event.gameOver (some w) (winnerNameOf r)]) ∧
      computeWinner r.scores = (some w, m) ∧
      r.scores = l1 ++ (w, m) :: l2 ∧
      (∀ q ∈ l1, q.2 < m) ∧ (∀ q ∈ r.scores, q.2 ≤ m) := by
  have hk1 : 1 ≤ d * 60 := by omega
  have hrun := runTicks_countdown (d * 60) r n hk1 ht ha hn
  obtain ⟨w, m, l1, l2, hw, hsplit, hl1, hall⟩ := computeWinner_spec r.scores hne hnn
  refine ⟨by simp [createRoomState], rfl, countdownEvents_length _,
    w, m, l1, l2, ?_, hw, hsplit, hl1, hall⟩
  rw [hrun, hw]

/-- Witness for C5: `sampleRoom` (countdown 120 = 2 minutes, score map
`[("A",0),("B",0)]`) run for 120 interval firings. -/
theorem claim_C5_game_loop_witness :
    (1 ≤ 2 ∧ sampleRoom.timeLeft = ((2 * 60 : ℕ) : ℤ) ∧
     sampleRoom.timerActive = true ∧ 2 * 60 ≤ 120 ∧
     sampleRoom.scores ≠ [] ∧ ∀ p ∈ sampleRoom.scores, 0 ≤ p.2) ∧
    ((createRoomState 2).timeLeft = (2 : ℤ) * 60 ∧
     TICK_INTERVAL_MS = 1000 ∧
     (countdownEvents (2 * 60)).length = 2 * 60 ∧
     ∃ w m l1 l2,
       runTicks 120 sampleRoom =
         ({ sampleRoom with timeLeft := 0, status := RoomStatus.FINISHED,
                            timerActive := false },
          countdownEvents (2 * 60) ++
            [Event.gameOver (some w) (winnerNameOf sampleRoom)]) ∧
       computeWinner sampleRoom.scores = (some w, m) ∧
       sampleRoom.scores = l1 ++ (w, m) :: l2 ∧
       (∀ q ∈ l1, q.2 < m) ∧ (∀ q ∈ sampleRoom.scores, q.2 ≤ m)) :=
  ⟨⟨by norm_num, by decide, rfl, by norm_num, by decide, by decide⟩,
   claim_C5_game_loop 2 sampleRoom 120 (by norm_num) (by decide) rfl
     (by norm_num) (by decide) (by decide)⟩

end Server

namespace Raycast

/-! ## Raycaster embedding (`src/engine/Raycaster.ts`)

`castWalls` walks the grid with DDA; `castSprites` projects sprites and
tests each covered column against the per-column z-buffer.  JS `Infinity`
(produced by `Math.abs(1 / 0)` when a ray component is zero) is embedded as
`none : Option ℚ`; with a camera whose coordinates are not integers the
side-distance initialisers multiply a *strictly positive* factor by that
infinity, so the JS value is again `Infinity`, matching `none` (the
`0 * Infinity = NaN` corner is excluded by the non-integrality hypothesis
carried by every theorem below). -/

/-- JS addition with `Infinity` (`none`). -/
def oadd : Option ℚ → Option ℚ → Option ℚ
  | some a, some b => some (a + b)
  | _, _ => none

/-- JS `<` with `Infinity` (`none`): `a < Infinity` is true, `Infinity < _`
is false. -/
def olt : Option ℚ → Option ℚ → Bool
  | some a, some b => decide (a < b)
  | some _, none => true
  | none, _ => false

/-- JS subtraction, only ever used finite − finite in the proofs. -/
def osub : Option ℚ → Option ℚ → Option ℚ
  | some a, some b => some (a - b)
  | _, _ => none

/-- `map[x]`: JS yields `undefined` for any out-of-range index. -/
def rowAt (m : List (List ℕ)) (x : ℤ) : Option (List ℕ) :=
  if x < 0 then none else m[x.toNat]?

/-- `row[y]`. -/
def cellAt (row : List ℕ) (y : ℤ) : Option ℕ :=
  if y < 0 then none else row[y.toNat]?

/-- The hit test of the DDA loop, `map[mapX] && map[mapX][mapY] > 0`
(`Raycaster.ts` line 166): an out-of-bounds index gives `undefined`, which
is falsy / fails `> 0`, so an out-of-bounds cell is treated as EMPTY
(non-blocking), not solid. -/
def hitCheck (m : List (List ℕ)) (x y : ℤ) : Bool :=
  match rowAt m x with
  | none => false
  | some row =>
    match cellAt row y with
    | none => false
    | some c => decide (0 < c)

/-- `deltaDistX = Math.abs(1 / rayDirX)`; `none` is the `Infinity` of a
zero component. -/
def deltaDist (rayDir : ℚ) : Option ℚ :=
  if rayDir = 0 then none else some |1 / rayDir|

/-- `stepX = rayDirX < 0 ? -1 : 1`. -/
def stepOf (rayDir : ℚ) : ℤ := if rayDir < 0 then -1 else 1

/-- The initial side-distance accumulator (`Raycaster.ts` lines 139–153). -/
def sideDistInit (rayDir pos : ℚ) (mapC : ℤ) : Option ℚ :=
  (deltaDist rayDir).map
    (fun d => if rayDir < 0 then (pos - (mapC : ℚ)) * d else ((mapC : ℚ) + 1 - pos) * d)

structure DDAState where
  mapX : ℤ
  mapY : ℤ
  sideDistX : Option ℚ
  sideDistY : Option ℚ
  side : ℕ
  deriving Repr, DecidableEq

/-- One iteration of the DDA `while` body (`Raycaster.ts` lines 157–165):
advance along whichever axis has the smaller accumulated side distance. -/
def ddaStep (dDX dDY : Option ℚ) (stepX stepY : ℤ) (s : DDAState) : DDAState :=
  if olt s.sideDistX s.sideDistY then
    { s with sideDistX := oadd s.sideDistX dDX, mapX := s.mapX + stepX, side := 0 }
  else
    { s with sideDistY := oadd s.sideDistY dDY, mapY := s.mapY + stepY, side := 1 }

/-- The DDA `while (hit === 0)` loop, fuelled: each iteration steps then
checks the freshly entered cell; `none` means the fuel ran out without a
hit (the source would still be looping). -/
def ddaRun (m : List (List ℕ)) (dDX dDY : Option ℚ) (stepX stepY : ℤ) :
    ℕ → DDAState → Option DDAState
  | 0, _ => none
  | fuel + 1, s =>
    let s' := ddaStep dDX dDY stepX stepY s
    if hitCheck m s'.mapX s'.mapY then some s'
    else ddaRun m dDX dDY stepX stepY fuel s'

def initState (px py rx ry : ℚ) : DDAState :=
  { mapX := ⌊px⌋, mapY := ⌊py⌋,
    sideDistX := sideDistInit rx px ⌊px⌋,
    sideDistY := sideDistInit ry py ⌊py⌋,
    side := 0 }

/-- The full per-column cast of `castWalls` for one ray. -/
def castRay (m : List (List ℕ)) (px py rx ry : ℚ) (fuel : ℕ) : Option DDAState :=
  ddaRun m (deltaDist rx) (deltaDist ry) (stepOf rx) (stepOf ry) fuel
    (initState px py rx ry)

/-- `perpWallDist = side === 0 ? sideDistX - deltaDistX : sideDistY - deltaDistY`. -/
def perpWallDist (dDX dDY : Option ℚ) (s : DDAState) : Option ℚ :=
  if s.side = 0 then osub s.sideDistX dDX else osub s.sideDistY dDY

/-! ## Claim C7 — texture column mirroring -/

/-- `texX = Math.floor(wallX * texture.width)` (`Raycaster.ts` line 194). -/
def texXbase (wallX : ℚ) (width : ℕ) : ℤ := ⌊wallX * (width : ℚ)⌋

/-- The two mirroring conditionals of `Raycaster.ts` lines 195–196:
`if (side === 0 && rayDirX > 0)` and `if (side === 1 && rayDirY < 0)`. -/
def texXFinal (side : ℕ) (rayDirX rayDirY : ℚ) (wallX : ℚ) (width : ℕ) : ℤ :=
  let t0 := texXbase wallX width
  let t1 := if side = 0 ∧ 0 < rayDirX then (width : ℤ) - t0 - 1 else t0
  if side = 1 ∧ rayDirY < 0 then (width : ℤ) - t1 - 1 else t1

/-- Counterexample to claim C7: for a y-side hit with `rayDirY > 0` the
claim requires mirroring to `width - texX - 1`, but the source mirrors
y-side hits when `rayDirY < 0`: at `wallX = 1/4`, `width = 64` the code
yields the unmirrored 16, not 47. -/
theorem claim_C7_counterexample :
    texXFinal 1 0 1 (1/4) 64 = 16 ∧
    (64 : ℤ) - texXbase (1/4) 64 - 1 = 47 ∧ (16 : ℤ) ≠ 47 := by
  have hb : texXbase (1/4) 64 = 16 := by
    unfold texXbase
    norm_num
  refine ⟨?_, by rw [hb]; norm_num, by decide⟩
  unfold texXFinal
  rw [hb]
  norm_num

/-- Claim C7 (amended): an x-side hit is mirrored exactly when
`rayDirX > 0`, and a y-side hit exactly when `rayDirY < 0` (not `> 0` as
claimed); consequently flipping the sign of the relevant ray-direction
component consistently mirrors `texX` to `width - texX - 1`. -/
theorem claim_C7_amended (dx dx' dy dy' wallX : ℚ) (width : ℕ)
    (hdx : 0 < dx) (hdx' : dx' < 0) (hdy : dy < 0) (hdy' : 0 < dy') :
    texXFinal 0 dx dy wallX width = (width : ℤ) - texXbase wallX width - 1 ∧
    texXFinal 0 dx' dy wallX width = texXbase wallX width ∧
    texXFinal 1 dx dy wallX width = (width : ℤ) - texXbase wallX width - 1 ∧
    texXFinal 1 dx dy' wallX width = texXbase wallX width ∧
    texXFinal 0 dx dy wallX width =
      (width : ℤ) - texXFinal 0 dx' dy wallX width - 1 ∧
    texXFinal 1 dx dy wallX width =
      (width : ℤ) - texXFinal 1 dx dy' wallX width - 1 := by
  have h1 : ¬ dx' > 0 := not_lt.mpr (le_of_lt hdx')
  have h2 : ¬ dy' < 0 := not_lt.mpr (le_of_lt hdy')
  unfold texXFinal
  simp only [if_pos, if_neg]
  refine ⟨?_, ?_, ?_, ?_, ?_, ?_⟩ <;>
    simp [hdx, hdy, h1, h2]

/-- Witness for the amended C7 at `wallX = 1/4`, `width = 64`. -/
theorem claim_C7_amended_witness :
    ((0 : ℚ) < 1 ∧ (-1 : ℚ) < 0) ∧
    (texXFinal 0 1 (-1) (1/4) 64 = (64 : ℤ) - texXbase (1/4) 64 - 1 ∧
     texXFinal 0 (-1) (-1) (1/4) 64 = texXbase (1/4) 64 ∧
     texXFinal 1 1 (-1) (1/4) 64 = (64 : ℤ) - texXbase (1/4) 64 - 1 ∧
     texXFinal 1 1 1 (1/4) 64 = texXbase (1/4) 64 ∧
     texXFinal 0 1 (-1) (1/4) 64 = (64 : ℤ) - texXFinal 0 (-1) (-1) (1/4) 64 - 1 ∧
     texXFinal 1 1 (-1) (1/4) 64 = (64 : ℤ) - texXFinal 1 1 1 (1/4) 64 - 1) :=
  ⟨⟨by norm_num, by norm_num⟩,
   claim_C7_amended 1 (-1) (-1) 1 (1/4) 64 (by norm_num) (by norm_num)
     (by norm_num) (by norm_num)⟩

/-! ## Claim C8 — sprite z-buffer occlusion -/

/-- `spriteScreenX = Math.floor((w / 2) * (1 + transformX / transformY))`
(`Raycaster.ts` line 257). -/
def spriteScreenX (w : ℕ) (tX tY : ℚ) : ℤ := ⌊((w : ℚ) / 2) * (1 + tX / tY)⌋

/-- `Math.abs(Math.floor(h / transformY)) * zoom`, used for both the sprite
height and width (`Raycaster.ts` lines 260–261). -/
def spriteDim (h : ℕ) (tY zoom : ℚ) : ℚ := |(⌊(h : ℚ) / tY⌋ : ℚ)| * zoom

/-- `vOffset = player.pitch + (player.z * h * zoom) / transformY`. -/
def vOffsetVal (h : ℕ) (pitch z zoom tY : ℚ) : ℚ :=
  pitch + (z * (h : ℚ) * zoom) / tY

def drawStartYval (h : ℕ) (pitch z zoom tY : ℚ) : ℚ :=
  -(spriteDim h tY zoom) / 2 + (h : ℚ) / 2 + vOffsetVal h pitch z zoom tY

def drawEndYval (h : ℕ) (pitch z zoom tY : ℚ) : ℚ :=
  (spriteDim h tY zoom) / 2 + (h : ℚ) / 2 + vOffsetVal h pitch z zoom tY

/-- `drawStartX = Math.max(0, -spriteWidth / 2 + spriteScreenX)`. -/
def drawStartXval (w h : ℕ) (tX tY zoom : ℚ) : ℚ :=
  max 0 (-(spriteDim h tY zoom) / 2 + ((spriteScreenX w tX tY : ℤ) : ℚ))

/-- `drawEndX = Math.min(w - 1, spriteWidth / 2 + spriteScreenX)`. -/
def drawEndXval (w h : ℕ) (tX tY zoom : ℚ) : ℚ :=
  min ((w : ℚ) - 1) ((spriteDim h tY zoom) / 2 + ((spriteScreenX w tX tY : ℤ) : ℚ))

/-- The stripe loop of `castSprites` covers exactly the integers of
`[⌊drawStartX⌋, ⌊drawEndX⌋)`. -/
def coveredStripe (w h : ℕ) (tX tY zoom : ℚ) (stripe : ℤ) : Prop :=
  ⌊drawStartXval w h tX tY zoom⌋ ≤ stripe ∧ stripe < ⌊drawEndXval w h tX tY zoom⌋

/-- `this.zBuffer[stripe]` (only ever read at indices the gate has
bounds-checked). -/
def zbufAt (zbuf : List ℚ) (i : ℤ) : ℚ :=
  if i < 0 then 0 else zbuf.getD i.toNat 0

/-- The per-stripe draw gate of `Raycaster.ts` line 276:
`transformY > 0 && stripe > 0 && stripe < w && transformY < zBuffer[stripe]`. -/
def stripeGate (w : ℕ) (zbuf : List ℚ) (tY : ℚ) (stripe : ℤ) : Bool :=
  decide (0 < tY) && decide (0 < stripe) && decide (stripe < (w : ℤ)) &&
  decide (tY < zbufAt zbuf stripe)

/-- A stripe actually blits when the gate passes and the clipped vertical
span `(max 0 drawStartY, min (h-1) drawEndY)` is non-empty
(`Raycaster.ts` lines 276–285). -/
def stripeDrawn (w h : ℕ) (zbuf : List ℚ) (pitch z zoom tY : ℚ)
    (stripe : ℤ) : Bool :=
  stripeGate w zbuf tY stripe &&
  decide (max 0 (drawStartYval h pitch z zoom tY) <
    min ((h : ℚ) - 1) (drawEndYval h pitch z zoom tY))

/-- `if (transformY <= 0) continue` (`Raycaster.ts` line 255). -/
def spriteSkipped (tY : ℚ) : Bool := decide (tY ≤ 0)

/-- Counterexample to claim C8: a sprite of positive depth 1 reaching the
left screen edge covers column 0, and the z-buffer there holds 5 > 1, yet
the stripe is not drawn — the gate requires `stripe > 0`, so the claimed
"drawn iff D < Z over every covered column" fails at column 0. -/
theorem claim_C8_counterexample :
    coveredStripe 10 10 (-3/5) 1 1 0 ∧
    (0 : ℚ) < 1 ∧
    (1 : ℚ) < zbufAt (List.replicate 10 5) 0 ∧
    stripeDrawn 10 10 (List.replicate 10 5) 0 0 1 1 0 = false := by
  have hsx : spriteScreenX 10 (-3/5) 1 = 2 := by
    unfold spriteScreenX
    norm_num
  have hsd : spriteDim 10 1 1 = 10 := by
    unfold spriteDim
    norm_num
  refine ⟨⟨?_, ?_⟩, by norm_num, ?_, ?_⟩
  · unfold drawStartXval
    rw [hsx, hsd]
    norm_num
  · unfold drawEndXval
    rw [hsx, hsd]
    norm_num
  · unfold zbufAt
    norm_num
  · unfold stripeDrawn stripeGate
    norm_num

/-- Claim C8 (amended): for every sprite with positive transformed depth D
whose clipped vertical span is non-empty, and every screen column its
projection covers, the stripe is drawn iff `0 < stripe` AND `D` is strictly
below the z-buffer value at that column — i.e. the claimed `D < Z` test
holds for every covered column except the leftmost screen column (index 0),
which is never drawn; sprites with non-positive depth are skipped
entirely. -/
theorem claim_C8_amended (w h : ℕ) (zbuf : List ℚ) (pitch z zoom tX tY : ℚ)
    (stripe : ℤ)
    (hdepth : 0 < tY)
    (hcov : coveredStripe w h tX tY zoom stripe)
    (hvert : max 0 (drawStartYval h pitch z zoom tY) <
      min ((h : ℚ) - 1) (drawEndYval h pitch z zoom tY)) :
    (stripeDrawn w h zbuf pitch z zoom tY stripe = true ↔
      (0 < stripe ∧ tY < zbufAt zbuf stripe)) ∧
    spriteSkipped tY = false ∧
    (∀ tY' : ℚ, tY' ≤ 0 → spriteSkipped tY' = true) := by
  have hlt : stripe < (w : ℤ) := by
    have h1 : stripe < ⌊drawEndXval w h tX tY zoom⌋ := hcov.2
    have h2 : drawEndXval w h tX tY zoom ≤ (w : ℚ) - 1 := min_le_left _ _
    have h3 : ⌊drawEndXval w h tX tY zoom⌋ ≤ ⌊(w : ℚ) - 1⌋ :=
      Int.floor_le_floor h2
    have h4 : ⌊(w : ℚ) - 1⌋ = (w : ℤ) - 1 := by
      rw [show ((w : ℚ) - 1) = (((w : ℤ) - 1 : ℤ) : ℚ) by push_cast; ring]
      exact Int.floor_intCast _
    omega
  refine ⟨?_, ?_, ?_⟩
  · unfold stripeDrawn stripeGate
    simp only [Bool.and_eq_true, decide_eq_true_eq]
    constructor
    · rintro ⟨⟨⟨⟨_, hs⟩, _⟩, hz⟩, _⟩
      exact ⟨hs, hz⟩
    · rintro ⟨hs, hz⟩
      exact ⟨⟨⟨⟨hdepth, hs⟩, hlt⟩, hz⟩, hvert⟩
  · unfold spriteSkipped
    simp [not_le.mpr hdepth]
  · intro tY' h
    unfold spriteSkipped
    simp [h]

/-- Witness for the amended C8: depth 1 against a z-buffer of 5 at covered
column 3 is drawn; the iff instantiates concretely. -/
theorem claim_C8_amended_witness :
    ((0 : ℚ) < 1 ∧ coveredStripe 10 10 (-3/5) 1 1 3 ∧
     max 0 (drawStartYval 10 0 0 1 1) < min ((10 : ℚ) - 1) (drawEndYval 10 0 0 1 1)) ∧
    ((stripeDrawn 10 10 (List.replicate 10 5) 0 0 1 1 3 = true ↔
       ((0 : ℤ) < 3 ∧ (1 : ℚ) < zbufAt (List.replicate 10 5) 3)) ∧
     spriteSkipped 1 = false ∧
     (∀ tY' : ℚ, tY' ≤ 0 → spriteSkipped tY' = true)) := by
  have hsx : spriteScreenX 10 (-3/5) 1 = 2 := by
    unfold spriteScreenX
    norm_num
  have hsd : spriteDim 10 1 1 = 10 := by
    unfold spriteDim
    norm_num
  have hcov : coveredStripe 10 10 (-3/5) 1 1 3 := by
    constructor
    · unfold drawStartXval
      rw [hsx, hsd]
      norm_num
    · unfold drawEndXval
      rw [hsx, hsd]
      norm_num
  have hvert : max 0 (drawStartYval 10 0 0 1 1) <
      min ((10 : ℚ) - 1) (drawEndYval 10 0 0 1 1) := by
    unfold drawStartYval drawEndYval vOffsetVal
    rw [hsd]
    norm_num
  exact ⟨⟨by norm_num, hcov, hvert⟩,
    claim_C8_amended 10 10 (List.replicate 10 5) 0 0 1 (-3/5) 1 3
      (by norm_num) hcov hvert⟩

/-! ## Claim C2 — DDA termination and out-of-bounds policy -/

/-- A rectangular `W × H` grid whose whole border ring is solid — the shape
of the game's world map, and the reason the DDA loop cannot escape. -/
def solidFrame (m : List (List ℕ)) (W H : ℕ) : Prop :=
  m.length = W ∧ (∀ row ∈ m, row.length = H) ∧
  ∀ x : ℕ, x < W → ∀ y : ℕ, y < H →
    (x = 0 ∨ x = W - 1 ∨ y = 0 ∨ y = H - 1) →
    hitCheck m (x : ℤ) (y : ℤ) = true

/-- Outside the rectangle the hit test is FALSE: `castWalls` treats an
out-of-bounds index as empty (non-blocking), not as solid. -/
theorem hitCheck_oob (m : List (List ℕ)) (W H : ℕ)
    (hlen : m.length = W) (hrows : ∀ row ∈ m, row.length = H)
    (x y : ℤ) (h : x < 0 ∨ (W : ℤ) ≤ x ∨ y < 0 ∨ (H : ℤ) ≤ y) :
    hitCheck m x y = false := by
  unfold hitCheck rowAt cellAt
  rcases h with hx | hx | hy | hy
  · simp [hx]
  · have hx0 : ¬ x < 0 := by omega
    have hnone : m[x.toNat]? = none := List.getElem?_eq_none (by omega)
    simp [hx0, hnone]
  · by_cases hx0 : x < 0
    · simp [hx0]
    · cases hr : m[x.toNat]? with
      | none => simp [hx0, hr]
      | some row => simp [hx0, hr, hy]
  · by_cases hx0 : x < 0
    · simp [hx0]
    · cases hr : m[x.toNat]? with
      | none => simp [hx0, hr]
      | some row =>
        have hrow : row.length = H := hrows row (List.getElem?_mem hr)
        have hy0 : ¬ y < 0 := by omega
        have hnone : row[y.toNat]? = none := List.getElem?_eq_none (by omega)
        simp [hx0, hr, hy0, hnone]

/-- A cell of the frame the DDA just failed to hit cannot lie on the border
ring, so it is interior. -/
theorem interior_of_not_hit (m : List (List ℕ)) (W H : ℕ)
    (hframe : solidFrame m W H) (x y : ℤ)
    (hx0 : 0 ≤ x) (hx1 : x ≤ (W : ℤ) - 1) (hy0 : 0 ≤ y) (hy1 : y ≤ (H : ℤ) - 1)
    (hnohit : hitCheck m x y = false) :
    1 ≤ x ∧ x ≤ (W : ℤ) - 2 ∧ 1 ≤ y ∧ y ≤ (H : ℤ) - 2 := by
  have hsplit : (1 ≤ x ∧ x ≤ (W : ℤ) - 2 ∧ 1 ≤ y ∧ y ≤ (H : ℤ) - 2) ∨
      (x.toNat = 0 ∨ x.toNat = W - 1 ∨ y.toNat = 0 ∨ y.toNat = H - 1) := by
    omega
  rcases hsplit with h | hborder
  · exact h
  · exfalso
    have hxW : x.toNat < W := by omega
    have hyH : y.toNat < H := by omega
    have htrue := hframe.2.2 x.toNat hxW y.toNat hyH hborder
    rw [Int.toNat_of_nonneg hx0, Int.toNat_of_nonneg hy0] at htrue
    rw [htrue] at hnohit
    cases hnohit

/-- Coupling of a delta-distance with its side-distance accumulator: both
infinite (zero ray component), or both finite and strictly positive. -/
def sdOK (d sd : Option ℚ) : Prop :=
  (d = none ∧ sd = none) ∨
  (∃ dv sv : ℚ, d = some dv ∧ sd = some sv ∧ 0 < dv ∧ 0 < sv)

/-- Distance (in grid steps) from the current cell to the border the ray is
walking towards, along each axis. -/
def ddaMeasure (W H : ℕ) (stepX stepY : ℤ) (s : DDAState) : ℤ :=
  (if stepX = 1 then (W : ℤ) - 1 - s.mapX else s.mapX) +
  (if stepY = 1 then (H : ℤ) - 1 - s.mapY else s.mapY)

/-- Main induction: from any interior cell, with side distances coupled to
the delta distances and enough fuel, the DDA loop reaches a solid cell and
the perpendicular distance it reports is finite and strictly positive. -/
theorem ddaRun_terminates (m : List (List ℕ)) (W H : ℕ)
    (hframe : solidFrame m W H)
    (dDX dDY : Option ℚ) (stepX stepY : ℤ)
    (hsx : stepX = 1 ∨ stepX = -1) (hsy : stepY = 1 ∨ stepY = -1)
    (hne : ¬ (dDX = none ∧ dDY = none)) :
    ∀ (fuel : ℕ) (s : DDAState),
      sdOK dDX s.sideDistX → sdOK dDY s.sideDistY →
      1 ≤ s.mapX → s.mapX ≤ (W : ℤ) - 2 → 1 ≤ s.mapY → s.mapY ≤ (H : ℤ) - 2 →
      ddaMeasure W H stepX stepY s ≤ (fuel : ℤ) →
      ∃ (s' : DDAState) (q : ℚ),
        ddaRun m dDX dDY stepX stepY fuel s = some s' ∧
        hitCheck m s'.mapX s'.mapY = true ∧
        perpWallDist dDX dDY s' = some q ∧ 0 < q := by
  intro fuel
  induction fuel with
  | zero =>
    intro s _ _ hx1 hx2 hy1 hy2 hmu
    exfalso
    unfold ddaMeasure at hmu
    rcases hsx with h | h <;> rcases hsy with h' | h' <;>
      simp only [h, h', if_pos, if_neg, reduceIte] at hmu <;> omega
  | succ fuel ih =>
    intro s hsdx hsdy hx1 hx2 hy1 hy2 hmu
    by_cases hbr : olt s.sideDistX s.sideDistY = true
    · -- X branch of the step
      rcases hsdx with ⟨hd, hsd⟩ | ⟨dv, sv, hd, hsd, hdv, hsv⟩
      · rw [hsd] at hbr
        cases s.sideDistY <;> simp [olt] at hbr
      · have hs'eq : ddaStep dDX dDY stepX stepY s =
            { s with sideDistX := some (sv + dv), mapX := s.mapX + stepX,
                     side := 0 } := by
          rw [ddaStep, if_pos hbr, hsd, hd]
          rfl
        by_cases hhit :
            hitCheck m (ddaStep dDX dDY stepX stepY s).mapX
              (ddaStep dDX dDY stepX stepY s).mapY = true
        · refine ⟨ddaStep dDX dDY stepX stepY s, sv, ?_, hhit, ?_, hsv⟩
          · rw [ddaRun, if_pos hhit]
          · rw [hs'eq]
            simp [perpWallDist, osub, hd, add_sub_cancel_right]
        · have hhitF : hitCheck m (ddaStep dDX dDY stepX stepY s).mapX
              (ddaStep dDX dDY stepX stepY s).mapY = false :=
            Bool.eq_false_iff.mpr hhit
          have hx0' : 0 ≤ (ddaStep dDX dDY stepX stepY s).mapX := by
            rw [hs'eq]
            show 0 ≤ s.mapX + stepX
            rcases hsx with h | h <;> omega
          have hx1' : (ddaStep dDX dDY stepX stepY s).mapX ≤ (W : ℤ) - 1 := by
            rw [hs'eq]
            show s.mapX + stepX ≤ (W : ℤ) - 1
            rcases hsx with h | h <;> omega
          have hy0' : 0 ≤ (ddaStep dDX dDY stepX stepY s).mapY := by
            rw [hs'eq]
            show 0 ≤ s.mapY
            omega
          have hy1' : (ddaStep dDX dDY stepX stepY s).mapY ≤ (H : ℤ) - 1 := by
            rw [hs'eq]
            show s.mapY ≤ (H : ℤ) - 1
            omega
          have hint := interior_of_not_hit m W H hframe _ _ hx0' hx1' hy0' hy1' hhitF
          have hsdx' : sdOK dDX (ddaStep dDX dDY stepX stepY s).sideDistX := by
            rw [hs'eq]
            exact Or.inr ⟨dv, sv + dv, hd, rfl, hdv, by linarith⟩
          have hsdy' : sdOK dDY (ddaStep dDX dDY stepX stepY s).sideDistY := by
            rw [hs'eq]
            exact hsdy
          have hmu' : ddaMeasure W H stepX stepY (ddaStep dDX dDY stepX stepY s) ≤
              (fuel : ℤ) := by
            rw [hs'eq]
            unfold ddaMeasure at hmu ⊢
            show (if stepX = 1 then (W : ℤ) - 1 - (s.mapX + stepX) else s.mapX + stepX) +
                (if stepY = 1 then (H : ℤ) - 1 - s.mapY else s.mapY) ≤ (fuel : ℤ)
            push_cast at hmu
            rcases hsx with h | h <;> rcases hsy with h' | h' <;> subst h <;> subst h' <;>
              norm_num at hmu ⊢ <;> omega
          obtain ⟨s'', q, hrun, hhit'', hperp, hq⟩ :=
            ih _ hsdx' hsdy' hint.1 hint.2.1 hint.2.2.1 hint.2.2.2 hmu'
          exact ⟨s'', q, by rw [ddaRun, if_neg hhit]; exact hrun, hhit'', hperp, hq⟩
    · -- Y branch of the step
      have hy_fin : ∃ dv sv : ℚ, dDY = some dv ∧ s.sideDistY = some sv ∧
          0 < dv ∧ 0 < sv := by
        rcases hsdy with ⟨hd, hsd⟩ | ⟨dv, sv, hd, hsd, hdv, hsv⟩
        · exfalso
          rcases hsdx with ⟨hdx, hsdx0⟩ | ⟨dvx, svx, hdx, hsdx0, _, _⟩
          · exact hne ⟨hdx, hd⟩
          · rw [hsdx0, hsd] at hbr
            simp [olt] at hbr
        · exact ⟨dv, sv, hd, hsd, hdv, hsv⟩
      obtain ⟨dv, sv, hd, hsd, hdv, hsv⟩ := hy_fin
      have hbrF : olt s.sideDistX s.sideDistY = false := Bool.eq_false_iff.mpr hbr
      have hs'eq : ddaStep dDX dDY stepX stepY s =
          { s with sideDistY := some (sv + dv), mapY := s.mapY + stepY,
                   side := 1 } := by
        rw [ddaStep, if_neg (by rw [hbrF]; exact Bool.false_ne_true), hsd, hd]
        rfl
      by_cases hhit :
          hitCheck m (ddaStep dDX dDY stepX stepY s).mapX
            (ddaStep dDX dDY stepX stepY s).mapY = true
      · refine ⟨ddaStep dDX dDY stepX stepY s, sv, ?_, hhit, ?_, hsv⟩
        · rw [ddaRun, if_pos hhit]
        · rw [hs'eq]
          simp [perpWallDist, osub, hd, add_sub_cancel_right]
      · have hhitF : hitCheck m (ddaStep dDX dDY stepX stepY s).mapX
            (ddaStep dDX dDY stepX stepY s).mapY = false :=
          Bool.eq_false_iff.mpr hhit
        have hx0' : 0 ≤ (ddaStep dDX dDY stepX stepY s).mapX := by
          rw [hs'eq]
          show 0 ≤ s.mapX
          omega
        have hx1' : (ddaStep dDX dDY stepX stepY s).mapX ≤ (W : ℤ) - 1 := by
          rw [hs'eq]
          show s.mapX ≤ (W : ℤ) - 1
          omega
        have hy0' : 0 ≤ (ddaStep dDX dDY stepX stepY s).mapY := by
          rw [hs'eq]
          show 0 ≤ s.mapY + stepY
          rcases hsy with h | h <;> omega
        have hy1' : (ddaStep dDX dDY stepX stepY s).mapY ≤ (H : ℤ) - 1 := by
          rw [hs'eq]
          show s.mapY + stepY ≤ (H : ℤ) - 1
          rcases hsy with h | h <;> omega
        have hint := interior_of_not_hit m W H hframe _ _ hx0' hx1' hy0' hy1' hhitF
        have hsdx' : sdOK dDX (ddaStep dDX dDY stepX stepY s).sideDistX := by
          rw [hs'eq]
          exact hsdx
        have hsdy' : sdOK dDY (ddaStep dDX dDY stepX stepY s).sideDistY := by
          rw [hs'eq]
          exact Or.inr ⟨dv, sv + dv, hd, rfl, hdv, by linarith⟩
        have hmu' : ddaMeasure W H stepX stepY (ddaStep dDX dDY stepX stepY s) ≤
            (fuel : ℤ) := by
          rw [hs'eq]
          unfold ddaMeasure at hmu ⊢
          show (if stepX = 1 then (W : ℤ) - 1 - s.mapX else s.mapX) +
              (if stepY = 1 then (H : ℤ) - 1 - (s.mapY + stepY) else s.mapY + stepY) ≤ (fuel : ℤ)
          push_cast at hmu
          rcases hsx with h | h <;> rcases hsy with h' | h' <;> subst h <;> subst h' <;>
            norm_num at hmu ⊢ <;> omega
        obtain ⟨s'', q, hrun, hhit'', hperp, hq⟩ :=
          ih _ hsdx' hsdy' hint.1 hint.2.1 hint.2.2.1 hint.2.2.2 hmu'
        exact ⟨s'', q, by rw [ddaRun, if_neg hhit]; exact hrun, hhit'', hperp, hq⟩

/-- A 1×1 map holding a single empty cell: no solid border anywhere. -/
def borderlessMap : List (List ℕ) := [[0]]

theorem hitCheck_borderless (x y : ℤ) : hitCheck borderlessMap x y = false := by
  by_cases h : x = 0 ∧ y = 0
  · rw [h.1, h.2]
    rfl
  · apply hitCheck_oob borderlessMap 1 1 rfl (by simp [borderlessMap])
    omega

theorem ddaRun_no_hit_none (m : List (List ℕ))
    (h : ∀ x y : ℤ, hitCheck m x y = false)
    (dDX dDY : Option ℚ) (stepX stepY : ℤ) :
    ∀ (fuel : ℕ) (s : DDAState), ddaRun m dDX dDY stepX stepY fuel s = none := by
  intro fuel
  induction fuel with
  | zero => intro s; rfl
  | succ n ih =>
    intro s
    rw [ddaRun, if_neg (by simp [h])]
    exact ih _

/-- Counterexample to claim C2: the hit test of the DDA loop treats an
out-of-bounds grid index as EMPTY (falsy `undefined`), not as a solid cell,
and consequently on a map without a solid border the loop steps past the
map edge without ever hitting: from inside the one-cell empty map, a
million iterations (indeed any fuel, by `ddaRun_no_hit_none`) produce no
hit. -/
theorem claim_C2_counterexample :
    hitCheck borderlessMap 1 0 = false ∧
    hitCheck borderlessMap (-1) 0 = false ∧
    castRay borderlessMap (1/2) (1/2) 2 1 1000000 = none :=
  ⟨hitCheck_borderless 1 0, hitCheck_borderless (-1) 0,
   ddaRun_no_hit_none borderlessMap hitCheck_borderless _ _ _ _ 1000000 _⟩

theorem stepOf_cases (r : ℚ) : stepOf r = 1 ∨ stepOf r = -1 := by
  unfold stepOf
  split
  · exact Or.inr rfl
  · exact Or.inl rfl

/-- The initial side-distance accumulators are coupled to the delta
distances: a zero ray component gives `Infinity`/`Infinity`, a non-zero one
gives two finite strictly positive values (here non-integrality of the
camera coordinate makes the `rayDir < 0` factor strictly positive). -/
theorem sdOK_init (r pos : ℚ) (hfrac : (⌊pos⌋ : ℚ) < pos) :
    sdOK (deltaDist r) (sideDistInit r pos ⌊pos⌋) := by
  by_cases hr : r = 0
  · exact Or.inl ⟨by simp [deltaDist, hr], by simp [sideDistInit, deltaDist, hr]⟩
  · right
    have hd : 0 < |1 / r| := abs_pos.mpr (one_div_ne_zero hr)
    refine ⟨|1 / r|,
      (if r < 0 then (pos - (⌊pos⌋ : ℚ)) * |1 / r|
       else ((⌊pos⌋ : ℚ) + 1 - pos) * |1 / r|), ?_, ?_, hd, ?_⟩
    · simp [deltaDist, hr]
    · simp [sideDistInit, deltaDist, hr]
    · by_cases hneg : r < 0
      · rw [if_pos hneg]
        exact mul_pos (sub_pos.mpr hfrac) hd
      · rw [if_neg hneg]
        have hlt : pos < (⌊pos⌋ : ℚ) + 1 := Int.lt_floor_add_one pos
        exact mul_pos (by linarith) hd

/-- Claim C2 (amended): `castWalls` treats an out-of-bounds grid index as
EMPTY (non-blocking), not solid; the loop cannot escape only because the
map carries a solid border ring.  For every such map, every camera strictly
inside an interior cell (non-integer coordinates) and every ray direction
of non-zero magnitude, the DDA loop terminates with a hit within `W + H`
steps and reports a finite, strictly positive perpendicular distance. -/
theorem claim_C2_amended (m : List (List ℕ)) (W H : ℕ) (px py rx ry : ℚ)
    (hframe : solidFrame m W H)
    (hpx1 : 1 ≤ ⌊px⌋) (hpx2 : ⌊px⌋ ≤ (W : ℤ) - 2)
    (hpy1 : 1 ≤ ⌊py⌋) (hpy2 : ⌊py⌋ ≤ (H : ℤ) - 2)
    (hfx : (⌊px⌋ : ℚ) < px) (hfy : (⌊py⌋ : ℚ) < py)
    (hdir : ¬ (rx = 0 ∧ ry = 0)) :
    (∀ x y : ℤ, (x < 0 ∨ (W : ℤ) ≤ x ∨ y < 0 ∨ (H : ℤ) ≤ y) →
      hitCheck m x y = false) ∧
    ∃ (s : DDAState) (q : ℚ),
      castRay m px py rx ry (W + H) = some s ∧
      hitCheck m s.mapX s.mapY = true ∧
      perpWallDist (deltaDist rx) (deltaDist ry) s = some q ∧ 0 < q := by
  refine ⟨fun x y h => hitCheck_oob m W H hframe.1 hframe.2.1 x y h, ?_⟩
  have hne : ¬ (deltaDist rx = none ∧ deltaDist ry = none) := by
    rintro ⟨h1, h2⟩
    apply hdir
    constructor
    · by_contra hrx
      simp [deltaDist, hrx] at h1
    · by_contra hry
      simp [deltaDist, hry] at h2
  have hmu : ddaMeasure W H (stepOf rx) (stepOf ry) (initState px py rx ry) ≤
      ((W + H : ℕ) : ℤ) := by
    unfold ddaMeasure initState
    rcases stepOf_cases rx with h | h <;> rcases stepOf_cases ry with h' | h' <;>
      rw [h, h'] <;> push_cast <;> omega
  exact ddaRun_terminates m W H hframe (deltaDist rx) (deltaDist ry)
    (stepOf rx) (stepOf ry) (stepOf_cases rx) (stepOf_cases ry) hne
    (W + H) (initState px py rx ry) (sdOK_init rx px hfx) (sdOK_init ry py hfy)
    hpx1 hpx2 hpy1 hpy2 hmu

/-- A 4×4 map with a full solid border and empty interior, the smallest
instance of the game map's shape. -/
def frameMap : List (List ℕ) :=
  [[1, 1, 1, 1], [1, 0, 0, 1], [1, 0, 0, 1], [1, 1, 1, 1]]

/-- Witness for the amended C2: camera at `(3/2, 3/2)` inside `frameMap`,
ray direction `(1, 1/3)`. -/
theorem claim_C2_amended_witness :
    (solidFrame frameMap 4 4 ∧
     (1 : ℤ) ≤ ⌊(3/2 : ℚ)⌋ ∧ ⌊(3/2 : ℚ)⌋ ≤ (4 : ℤ) - 2 ∧
     ((⌊(3/2 : ℚ)⌋ : ℚ) < 3/2) ∧ ¬ ((1 : ℚ) = 0 ∧ (1/3 : ℚ) = 0)) ∧
    ((∀ x y : ℤ, (x < 0 ∨ (4 : ℤ) ≤ x ∨ y < 0 ∨ (4 : ℤ) ≤ y) →
        hitCheck frameMap x y = false) ∧
     ∃ (s : DDAState) (q : ℚ),
       castRay frameMap (3/2) (3/2) 1 (1/3) (4 + 4) = some s ∧
       hitCheck frameMap s.mapX s.mapY = true ∧
       perpWallDist (deltaDist 1) (deltaDist (1/3)) s = some q ∧ 0 < q) := by
  have hfloor : ⌊(3/2 : ℚ)⌋ = 1 := by norm_num
  have hframe : solidFrame frameMap 4 4 := by
    refine ⟨rfl, by decide, by decide⟩
  refine ⟨⟨hframe, by rw [hfloor], by rw [hfloor]; norm_num,
    by rw [hfloor]; norm_num, by norm_num⟩, ?_⟩
  exact claim_C2_amended frameMap 4 4 (3/2) (3/2) 1 (1/3) hframe
    (by rw [hfloor]) (by rw [hfloor]; norm_num) (by rw [hfloor])
    (by rw [hfloor]; norm_num) (by rw [hfloor]; norm_num)
    (by rw [hfloor]; norm_num) (by norm_num)

end Raycast

namespace Shoot

/-! ## Shot resolution (`shoot` in the `Game` component, `unnamed/part_001`)

The enemy-targeting loop: among live enemies in front of the player, within
the wall-limited range, inside a perpendicular corridor narrower than 0.5
world units, with sampled line of sight, and with the crosshair inside the
projected sprite span, the nearest is selected; the vertical hit fraction
decides the headshot multiplier.

`Math.sqrt(dx*dx + dy*dy)` has no rational value in general, so the
Euclidean distance of each enemy is supplied as a function `d` — every
theorem below holds for EVERY assignment of `d`, so nothing depends on the
interpretation. -/

/-- `hasLineOfSight` (`unnamed/part_001` lines 654–663): march 25 fixed
steps along the segment; reject when a sample lands on a positive cell.
The cell test `map[Math.floor(cx)]?.[Math.floor(cy)] > 0` is exactly the
raycaster's `hitCheck`. -/
def losRun (m : List (List ℕ)) (dx dy : ℚ) : ℕ → ℚ → ℚ → Bool
  | 0, _, _ => true
  | n + 1, cx, cy =>
    let cx' := cx + dx
    let cy' := cy + dy
    if Raycast.hitCheck m ⌊cx'⌋ ⌊cy'⌋ then false
    else losRun m dx dy n cx' cy'

def hasLineOfSight (p1x p1y p2x p2y : ℚ) (m : List (List ℕ)) : Bool :=
  losRun m ((p2x - p1x) / 25) ((p2y - p1y) / 25) 25 p1x p1y

/-- The camera / weapon state read by `shoot`; `wallDist` is the result of
the wall DDA run just above the enemy loop, `zoom = FOV / currentFovScale`. -/
structure ShotCfg where
  px : ℚ
  py : ℚ
  dirX : ℚ
  dirY : ℚ
  pitch : ℚ
  z : ℚ
  zoom : ℚ
  screenH : ℚ
  wallDist : ℚ
  map : List (List ℕ)

structure EnemyE where
  id : ℕ
  x : ℚ
  y : ℚ
  health : ℤ
  deriving Repr, DecidableEq

def dxOf (c : ShotCfg) (e : EnemyE) : ℚ := e.x - c.px
def dyOf (c : ShotCfg) (e : EnemyE) : ℚ := e.y - c.py

/-- `dot = dx * player.dir.x + dy * player.dir.y`. -/
def dotOf (c : ShotCfg) (e : EnemyE) : ℚ := dxOf c e * c.dirX + dyOf c e * c.dirY

/-- `perpDist = Math.abs(dx * player.dir.y - dy * player.dir.x)`. -/
def perpDistOf (c : ShotCfg) (e : EnemyE) : ℚ :=
  |dxOf c e * c.dirY - dyOf c e * c.dirX|

def vOffsetOf (c : ShotCfg) (dist : ℚ) : ℚ :=
  c.pitch + (c.z * c.screenH * c.zoom) / dist

def spriteHeightOf (c : ShotCfg) (dist : ℚ) : ℚ := (c.screenH / dist) * c.zoom

def drawStartYOf (c : ShotCfg) (dist : ℚ) : ℚ :=
  -(spriteHeightOf c dist) / 2 + c.screenH / 2 + vOffsetOf c dist

def drawEndYOf (c : ShotCfg) (dist : ℚ) : ℚ :=
  (spriteHeightOf c dist) / 2 + c.screenH / 2 + vOffsetOf c dist

def crosshairY (c : ShotCfg) : ℚ := c.screenH / 2

/-- `hitRelativeY = (crosshairY - drawStartY) / (drawEndY - drawStartY)`. -/
def hitRelOf (c : ShotCfg) (dist : ℚ) : ℚ :=
  (crosshairY c - drawStartYOf c dist) / (drawEndYOf c dist - drawStartYOf c dist)

/-- The nested acceptance tests of the enemy loop, flattened (the source
nests them as `if (dot > 0 && dist < wallDist) { if (perpDist < 0.5 && LOS)
{ if (crosshairY in span) … } }`, which is the same conjunction). -/
def accepts (c : ShotCfg) (e : EnemyE) (dist : ℚ) : Bool :=
  decide (0 < dotOf c e) && decide (dist < c.wallDist) &&
  decide (perpDistOf c e < 1/2) &&
  hasLineOfSight c.px c.py e.x e.y c.map &&
  decide (drawStartYOf c dist ≤ crosshairY c) &&
  decide (crosshairY c ≤ drawEndYOf c dist)

/-- One `forEach` body over the accumulator
`(closestEnemy, closestDist, hitRelativeY)`; `closestDist` starts at
`Infinity`, embedded as `none`. -/
def selStep (c : ShotCfg) (d : EnemyE → ℚ)
    (acc : Option EnemyE × Option ℚ × ℚ) (e : EnemyE) :
    Option EnemyE × Option ℚ × ℚ :=
  if e.health ≤ 0 then acc
  else if accepts c e (d e) then
    if Raycast.olt (some (d e)) acc.2.1 then (some e, some (d e), hitRelOf c (d e))
    else acc
  else acc

/-- The full enemy loop of `shoot`. -/
def selectTarget (c : ShotCfg) (d : EnemyE → ℚ) (enemies : List EnemyE) :
    Option EnemyE × Option ℚ × ℚ :=
  enemies.foldl (selStep c d) (none, none, 0)

/-- `isHead = hitRelativeY < 0.25`. -/
def isHeadOf (hitRel : ℚ) : Bool := decide (hitRel < 1/4)

/-- `dmg = isHead ? weapon.damage * weapon.headshotMultiplier : weapon.damage`. -/
def appliedDamage (damage mult hitRel : ℚ) : ℚ :=
  if isHeadOf hitRel then damage * mult else damage

/-- `≤` on `Option ℚ` with `none = Infinity`. -/
def ole : Option ℚ → Option ℚ → Bool
  | _, none => true
  | none, some _ => false
  | some a, some b => decide (a ≤ b)

theorem ole_refl (a : Option ℚ) : ole a a = true := by
  cases a <;> simp [ole]

theorem ole_trans (a b c : Option ℚ) (h1 : ole a b = true) (h2 : ole b c = true) :
    ole a c = true := by
  cases a <;> cases b <;> cases c <;> simp [ole] at h1 h2 ⊢ <;> linarith

theorem ole_of_olt_eq_false (a b : Option ℚ)
    (h : Raycast.olt a b = false) : ole b a = true := by
  cases a <;> cases b <;> simp [Raycast.olt, ole] at h ⊢ <;> linarith

theorem selStep_mono (c : ShotCfg) (d : EnemyE → ℚ)
    (acc : Option EnemyE × Option ℚ × ℚ) (e : EnemyE) :
    ole (selStep c d acc e).2.1 acc.2.1 = true := by
  unfold selStep
  split
  · exact ole_refl _
  · split
    · split
      · rename_i hlt
        cases hacc : acc.2.1 with
        | none => simp [ole]
        | some v =>
          rw [hacc] at hlt
          simp only [Raycast.olt, decide_eq_true_eq] at hlt
          simp only [ole, decide_eq_true_eq]
          linarith
      · exact ole_refl _
    · exact ole_refl _

/-- Fold invariant of the enemy loop: the stored closest distance only
decreases, it is at most the distance of every live accepted enemy already
seen, and the accumulator is either untouched or holds a live accepted
enemy together with its own distance and hit fraction. -/
theorem selFold_spec (c : ShotCfg) (d : EnemyE → ℚ) :
    ∀ (l : List EnemyE) (acc : Option EnemyE × Option ℚ × ℚ),
      ole (l.foldl (selStep c d) acc).2.1 acc.2.1 = true ∧
      (∀ e' ∈ l, 0 < e'.health → accepts c e' (d e') = true →
        ole (l.foldl (selStep c d) acc).2.1 (some (d e')) = true) ∧
      (l.foldl (selStep c d) acc = acc ∨
       ∃ e ∈ l, 0 < e.health ∧ accepts c e (d e) = true ∧
         l.foldl (selStep c d) acc = (some e, some (d e), hitRelOf c (d e))) := by
  intro l
  induction l with
  | nil =>
    intro acc
    exact ⟨ole_refl _, by simp, Or.inl rfl⟩
  | cons e l ih =>
    intro acc
    obtain ⟨ih1, ih2, ih3⟩ := ih (selStep c d acc e)
    have hmono : ole ((e :: l).foldl (selStep c d) acc).2.1 acc.2.1 = true := by
      rw [List.foldl_cons]
      exact ole_trans _ _ _ ih1 (selStep_mono c d acc e)
    refine ⟨hmono, ?_, ?_⟩
    · intro e' he' halive hacc
      rcases List.mem_cons.mp he' with rfl | hmem
      · -- the head element itself
        rw [List.foldl_cons]
        by_cases hlt : Raycast.olt (some (d e')) acc.2.1 = true
        · have hstep : (selStep c d acc e').2.1 = some (d e') := by
            unfold selStep
            rw [if_neg (by omega), if_pos hacc, if_pos hlt]
          exact ole_trans _ _ _ ih1 (by rw [hstep]; exact ole_refl _)
        · have hole : ole acc.2.1 (some (d e')) = true :=
            ole_of_olt_eq_false _ _ (Bool.eq_false_iff.mpr hlt)
          exact ole_trans _ _ _
            (ole_trans _ _ _ ih1 (selStep_mono c d acc e')) hole
      · rw [List.foldl_cons]
        exact ih2 e' hmem halive hacc
    · rw [List.foldl_cons]
      rcases ih3 with heq | ⟨e0, hmem, halive, hacc, heq⟩
      · rw [heq]
        unfold selStep
        split
        · exact Or.inl rfl
        · split
          · split
            · rename_i halive' hacc' hlt
              exact Or.inr ⟨e, List.mem_cons_self e l, by omega, hacc', rfl⟩
            · exact Or.inl rfl
          · exact Or.inl rfl
      · exact Or.inr ⟨e0, List.mem_cons_of_mem e hmem, halive, hacc, heq⟩

/-- Claim C9: when a fire command resolves against a live enemy, the
selected target was a live candidate — in particular it lies inside the
perpendicular corridor (≤ 0.5 world units; the source uses a strict
`< 0.5`) and has unobstructed sampled line of sight; it is the nearest
accepted candidate; the recorded hit fraction is the crosshair's normalized
vertical position within ITS projected span; and the headshot
classification applies `damage × headshotMultiplier` exactly when that
fraction falls in the top quarter. -/
theorem claim_C9_shot_resolution (c : ShotCfg) (d : EnemyE → ℚ)
    (enemies : List EnemyE) (e : EnemyE) (cd : Option ℚ) (hr : ℚ)
    (damage mult : ℚ)
    (hsel : selectTarget c d enemies = (some e, cd, hr)) :
    (0 < e.health ∧ e ∈ enemies ∧ accepts c e (d e) = true) ∧
    (perpDistOf c e ≤ 1/2 ∧
     hasLineOfSight c.px c.py e.x e.y c.map = true) ∧
    cd = some (d e) ∧ hr = hitRelOf c (d e) ∧
    (∀ e' ∈ enemies, 0 < e'.health → accepts c e' (d e') = true → d e ≤ d e') ∧
    (isHeadOf hr = true ↔ hr < 1/4) ∧
    appliedDamage damage mult hr = if hr < 1/4 then damage * mult else damage := by
  obtain ⟨h1, h2, h3⟩ := selFold_spec c d enemies (none, none, 0)
  unfold selectTarget at hsel
  rcases h3 with heq | ⟨e0, hmem, halive, hacc, heq⟩
  · rw [heq] at hsel
    cases hsel
  · rw [heq] at hsel
    simp only [Prod.mk.injEq, Option.some.injEq] at hsel
    obtain ⟨hee, hcd, hhr⟩ := hsel
    rw [← hee]
    have hacc2 := hacc
    simp only [accepts, Bool.and_eq_true, decide_eq_true_eq] at hacc2
    refine ⟨⟨halive, hmem, hacc⟩, ⟨le_of_lt hacc2.1.1.1.2, hacc2.1.1.2⟩,
      hcd.symm, hhr.symm, ?_, ?_, ?_⟩
    · intro e' hmem' halive' hacc'
      have hle := h2 e' hmem' halive' hacc'
      rw [heq] at hle
      simp only [ole, decide_eq_true_eq] at hle
      exact hle
    · unfold isHeadOf
      simp
    · simp [appliedDamage, isHeadOf]

/-- Evaluation helper for the witness: when the whole sampled segment stays
inside the empty cell `(1,1)`, the line-of-sight march never rejects. -/
theorem losRun_true_of_unit_cell (m : List (List ℕ)) (dx dy : ℚ)
    (hdx : 0 ≤ dx) (hdy : 0 ≤ dy)
    (hempty : Raycast.hitCheck m 1 1 = false) :
    ∀ (n : ℕ) (cx cy : ℚ),
      1 ≤ cx → cx + n * dx < 2 → 1 ≤ cy → cy + n * dy < 2 →
      losRun m dx dy n cx cy = true := by
  intro n
  induction n with
  | zero => intro cx cy _ _ _ _; rfl
  | succ n ih =>
    intro cx cy h1 h2 h3 h4
    have hnx : 0 ≤ (n : ℚ) * dx := mul_nonneg (by positivity) hdx
    have hny : 0 ≤ (n : ℚ) * dy := mul_nonneg (by positivity) hdy
    have hpcx : cx + ((n : ℚ) + 1) * dx < 2 := by push_cast at h2; linarith
    have hpcy : cy + ((n : ℚ) + 1) * dy < 2 := by push_cast at h4; linarith
    have hx' : 1 ≤ cx + dx := by linarith
    have hx2 : cx + dx + (n : ℚ) * dx < 2 := by linarith [hpcx]
    have hy' : 1 ≤ cy + dy := by linarith
    have hy2 : cy + dy + (n : ℚ) * dy < 2 := by linarith [hpcy]
    have hfx : ⌊cx + dx⌋ = 1 := by
      rw [Int.floor_eq_iff]
      constructor
      · push_cast
        linarith [mul_nonneg (show (0:ℚ) ≤ (n:ℚ) by positivity) hdx]
      · push_cast
        linarith
    have hfy : ⌊cy + dy⌋ = 1 := by
      rw [Int.floor_eq_iff]
      constructor
      · push_cast
        linarith
      · push_cast
        linarith
    rw [losRun]
    simp only [hfx, hfy, hempty, Bool.false_eq_true, if_false]
    exact ih (cx + dx) (cy + dy) hx' hx2 hy' hy2

/-- The camera of the witness scenario: standing at `(3/2, 3/2)` in the
middle of `frameMap`'s empty interior, looking along `+x`. -/
def cfgW : ShotCfg :=
  { px := 3/2, py := 3/2, dirX := 1, dirY := 0, pitch := 0, z := 0,
    zoom := 1, screenH := 200, wallDist := 10, map := Raycast.frameMap }

/-- The witness enemy: alive, `0.2` world units straight ahead. -/
def eW : EnemyE := { id := 1, x := 17/10, y := 3/2, health := 100 }

def dW : EnemyE → ℚ := fun _ => 1/5

/-- Witness for C9: in the concrete scenario the enemy is selected with
distance `1/5` and hit fraction `1/2` (a torso hit), and the theorem's
conclusions instantiate. -/
theorem claim_C9_shot_resolution_witness :
    selectTarget cfgW dW [eW] = (some eW, some (1/5), hitRelOf cfgW (1/5)) ∧
    ((0 < eW.health ∧ eW ∈ [eW] ∧ accepts cfgW eW (dW eW) = true) ∧
     (perpDistOf cfgW eW ≤ 1/2 ∧
      hasLineOfSight cfgW.px cfgW.py eW.x eW.y cfgW.map = true) ∧
     some (1/5) = some (dW eW) ∧ hitRelOf cfgW (1/5) = hitRelOf cfgW (dW eW) ∧
     (∀ e' ∈ [eW], 0 < e'.health → accepts cfgW e' (dW e') = true →
       dW eW ≤ dW e') ∧
     (isHeadOf (hitRelOf cfgW (1/5)) = true ↔ hitRelOf cfgW (1/5) < 1/4) ∧
     appliedDamage 25 2 (hitRelOf cfgW (1/5)) =
       if hitRelOf cfgW (1/5) < 1/4 then 25 * 2 else 25) := by
  have hlos : hasLineOfSight cfgW.px cfgW.py eW.x eW.y cfgW.map = true := by
    show losRun Raycast.frameMap ((17/10 - 3/2) / 25) ((3/2 - 3/2) / 25) 25 (3/2) (3/2) = true
    apply losRun_true_of_unit_cell
    · norm_num
    · norm_num
    · decide
    · norm_num
    · norm_num
    · norm_num
    · norm_num
  have haccepts : accepts cfgW eW (dW eW) = true := by
    unfold accepts
    rw [hlos]
    norm_num [cfgW, eW, dW, dotOf, dxOf, dyOf, perpDistOf, drawStartYOf,
      drawEndYOf, crosshairY, spriteHeightOf, vOffsetOf]
  have hsel : selectTarget cfgW dW [eW] = (some eW, some (1/5), hitRelOf cfgW (1/5)) := by
    unfold selectTarget
    rw [List.foldl_cons, List.foldl_nil]
    unfold selStep
    rw [if_neg (by decide), if_pos haccepts, if_pos (by simp [Raycast.olt])]
    rfl
  exact ⟨hsel, claim_C9_shot_resolution cfgW dW [eW] eW (some (1/5))
    (hitRelOf cfgW (1/5)) 25 2 hsel⟩

end Shoot


end RayFall
